import Mathlib

/-!
Verification of the Complect compiler front end and LLVM lowering backend.

This file is a shallow embedding, in Lean 4, of the parts of the Complect
compiler that the specification's claims are about:

* the character-level lexer (class Preprocessor, the streaming
  generator version with comment support): its finite-state machine,
  line/column tracking, and chunked-input processing loop;
* the token classifier (class Tokenizer, the generator version): keyword
  classification, operator validation, numeric conversion, quote stripping;
* the recursive-descent / precedence-climbing parser (class ASTBuilder,
  the version with parseComparison/parseAdditive/parseMultiplicative/
  parseUnary/parsePrimary);
* the call-site signature pre-pass and expression typing of the LLVM
  translator (LLVMTranslator.collectFunctionSignatures and
  LLVMTranslator.getExpressionType);
* the heap alloc/free discipline of LLVMTranslator.translateStatement for
  string variables, modelled as an event trace (malloc / free / store);
* the divisor guard emitted by LLVMTranslator.translateBinaryExpression
  for the / operator.

Modelling conventions: JavaScript strings become Lean String / List Char;
the lexer consumes decoded characters (the UTF-8 StringDecoder is outside
the modelled boundary, chunks arrive already decoded); thrown errors become
Except.error carrying the thrown message; the unbounded JS recursion of the
parser is made total with an explicit fuel argument (running out of fuel is
a distinguished "fuel" error never hit at the fuel values used in the
theorems); source-position spans on IR nodes are dropped where no claim
mentions them. The graphics (SDL) statement forms are not modelled: no
claim mentions them and they do not interact with the modelled parts.
-/

namespace Complect

/-- Preprocessing token kinds, from preprocessing-token-type.js. -/
inductive PTokType where
  | none
  | identifier
  | number
  | string
  | whitespace
  | linefeed
  | operator
  | eof
  | unknown
  deriving DecidableEq, Repr

/-- A preprocessing token: kind, accumulated text, and the line/column of
its first character, from preprocessing-token.js (fields value, type,
line, column; fresh tokens start as kind none with empty text at 0:0). -/
structure PTok where
  type : PTokType
  value : String
  line : Nat
  column : Nat
  deriving DecidableEq, Repr

/-- A fresh preprocessing token, as built by the PreprocessingToken
constructor with default arguments. -/
def emptyPTok : PTok := { type := .none, value := "", line := 0, column := 0 }

/-- Preprocessor.isWhitespace: space or tab. -/
def isWhitespace (c : Char) : Bool := c == ' ' || c == '\t'

/-- Preprocessor.isDigit. -/
def isDigit (c : Char) : Bool := decide ('0' ≤ c) && decide (c ≤ '9')

/-- Preprocessor.isStringAllowable (the version with comment support):
printable punctuation ranges, excluding both quote characters. -/
def isStringAllowable (c : Char) : Bool :=
  ((decide ('!' ≤ c) && decide (c ≤ '&')) ||
   (decide ('(' ≤ c) && decide (c ≤ '/')) ||
   (decide (':' ≤ c) && decide (c ≤ '@')) ||
   (decide ('[' ≤ c) && decide (c ≤ '\x60')) ||
   (decide ('\x7b' ≤ c) && decide (c ≤ '~'))) &&
  c != '\x22' && c != '\x27'

/-- Preprocessor.isLetter. -/
def isLetter (c : Char) : Bool :=
  (decide ('a' ≤ c) && decide (c ≤ 'z')) || (decide ('A' ≤ c) && decide (c ≤ 'Z'))

/-- Preprocessor.isLineFeed. -/
def isLineFeed (c : Char) : Bool := c == '\n'

/-- Preprocessor.isQuote (the version with comment support): either a
double or a single quote character. -/
def isQuote (c : Char) : Bool := c == '\x22' || c == '\x27'

/-- Preprocessor.isOperator: the eight single operator characters. -/
def isOperator (c : Char) : Bool :=
  c == '+' || c == '-' || c == '*' || c == '/' ||
  c == '=' || c == '<' || c == '>' || c == '%'

/-- The lexer FSM states (class PreprocessingState). -/
inductive FsmState where
  | initial
  | number
  | whitespace
  | identifier
  | string
  | operator
  | comment
  deriving DecidableEq, Repr

/-- The lexer's persistent state across characters and chunk boundaries:
FSM state, the token under construction, and the current line/column. -/
structure PState where
  state : FsmState
  cur : PTok
  line : Nat
  column : Nat
  deriving DecidableEq, Repr

/-- Preprocessor constructor state: initial FSM state, fresh token, 1:1. -/
def initPState : PState :=
  { state := .initial, cur := emptyPTok, line := 1, column := 1 }

/-- Preprocessor.finalizeCurrentToken: stamp the kind decided by the FSM
state on the current token (identifier and number already carry their
kind); in comment state no token is produced. -/
def finalizeCurrentToken (st : PState) : Option PTok :=
  match st.state with
  | .whitespace => some { st.cur with type := .whitespace }
  | .string => some { st.cur with type := .string }
  | .operator => some { st.cur with type := .operator }
  | .comment => none
  | _ => some st.cur

/-- Position the current token at the cursor and optionally stamp a kind
and append the character, as the token-start branches of the initial FSM
state all do. -/
def startCur (st : PState) (k : PTokType) (text : String) : PTok :=
  { type := k, value := text, line := st.line, column := st.column }

/-- One character handled in the initial FSM state (the initial case of
the switch in Preprocessor.process). `rest` is the remainder of the
current chunk, used only by the minus-then-digit lookahead, which in the
source reads current[i + 1] and therefore cannot see past the end of the
chunk being processed. Returns the updated state and any emitted tokens. -/
def stepInitial (st : PState) (c : Char) (rest : List Char) : PState × List PTok :=
  if isWhitespace c then
    ({ st with
       state := .whitespace,
       cur := startCur st st.cur.type st.cur.value,
       column := st.column + 1 }, [])
  else if isDigit c then
    ({ st with
       state := .number,
       cur := startCur st .number (st.cur.value.push c),
       column := st.column + 1 }, [])
  else if c == '-' && (match rest with | d :: _ => isDigit d | [] => false) then
    ({ st with
       state := .number,
       cur := startCur st .number (st.cur.value.push c),
       column := st.column + 1 }, [])
  else if isLineFeed c then
    let t := startCur st .linefeed st.cur.value
    ({ st with cur := emptyPTok, line := st.line + 1, column := 1 }, [t])
  else if isLetter c then
    ({ st with
       state := .identifier,
       cur := startCur st .identifier (st.cur.value.push c),
       column := st.column + 1 }, [])
  else if isOperator c then
    ({ st with
       state := .operator,
       cur := startCur st st.cur.type (st.cur.value.push c),
       column := st.column + 1 }, [])
  else if isQuote c then
    ({ st with
       state := .string,
       cur := startCur st st.cur.type (st.cur.value.push c),
       column := st.column + 1 }, [])
  else if c == '#' then
    ({ st with
       state := .comment,
       cur := startCur st st.cur.type (st.cur.value.push c),
       column := st.column + 1 }, [])
  else
    let t := startCur st .unknown (st.cur.value.push c)
    ({ st with cur := emptyPTok, column := st.column + 1 }, [t])

/-- The retreat path shared by the operator/whitespace/identifier/number
states: finalize and emit the current token, reset to the initial state
without advancing (incrementCol = false, i-- in the source), then process
the same character in the initial state. -/
def retreatInitial (st : PState) (c : Char) (rest : List Char) : PState × List PTok :=
  let ts0 := (finalizeCurrentToken st).toList
  let st1 := { st with cur := emptyPTok, state := .initial }
  let (st2, ts2) := stepInitial st1 c rest
  (st2, ts0 ++ ts2)

/-- Append a character to the token under construction and advance the
column, as the continuation branches of the accumulating states do. -/
def appendCur (st : PState) (c : Char) : PState :=
  { st with
    cur := { st.cur with value := st.cur.value.push c },
    column := st.column + 1 }

/-- The per-chunk character loop of Preprocessor.process, on an already
decoded chunk. State (FSM state, partial token, line/column) is threaded
so that it persists across calls, i.e. across chunk boundaries. -/
def processChars (st : PState) : List Char → PState × List PTok
  | [] => (st, [])
  | c :: rest =>
    match st.state with
    | .initial =>
      let (st1, ts1) := stepInitial st c rest
      let (st2, ts2) := processChars st1 rest
      (st2, ts1 ++ ts2)
    | .operator =>
      if isOperator c then
        processChars (appendCur st c) rest
      else
        let (st1, ts1) := retreatInitial st c rest
        let (st2, ts2) := processChars st1 rest
        (st2, ts1 ++ ts2)
    | .string =>
      if isLetter c || isDigit c || isWhitespace c || isStringAllowable c then
        processChars (appendCur st c) rest
      else if isQuote c then
        let t := { st.cur with type := .string, value := st.cur.value.push c }
        let st1 := { st with cur := emptyPTok, state := .initial, column := st.column + 1 }
        let (st2, ts2) := processChars st1 rest
        (st2, t :: ts2)
      else
        processChars { st with column := st.column + 1 } rest
    | .whitespace =>
      if isWhitespace c then
        processChars { st with column := st.column + 1 } rest
      else
        let (st1, ts1) := retreatInitial st c rest
        let (st2, ts2) := processChars st1 rest
        (st2, ts1 ++ ts2)
    | .identifier =>
      if isLetter c || isDigit c then
        processChars (appendCur st c) rest
      else
        let (st1, ts1) := retreatInitial st c rest
        let (st2, ts2) := processChars st1 rest
        (st2, ts1 ++ ts2)
    | .number =>
      if isDigit c then
        processChars (appendCur st c) rest
      else
        let (st1, ts1) := retreatInitial st c rest
        let (st2, ts2) := processChars st1 rest
        (st2, ts1 ++ ts2)
    | .comment =>
      if isLineFeed c then
        processChars { st with cur := emptyPTok, state := .initial, line := st.line + 1, column := 1 } rest
      else
        processChars { st with column := st.column + 1 } rest

/-- The outer chunk loop of Preprocessor.process: chunks are handled one
after the other, lexer state persisting between them. -/
def processChunks (st : PState) : List (List Char) → PState × List PTok
  | [] => (st, [])
  | ch :: rest =>
    let (st1, ts1) := processChars st ch
    let (st2, ts2) := processChunks st1 rest
    (st2, ts1 ++ ts2)

/-- The termination section of Preprocessor.process: finalize a pending
token unless the FSM is in the initial state, then emit the single
end-of-input token at the line/column reached. -/
def finalTokens (st : PState) : List PTok :=
  (if st.state = .initial then [] else (finalizeCurrentToken st).toList) ++
    [{ type := .eof, value := "", line := st.line, column := st.column }]

/-- Preprocessor.process in full: lex a sequence of chunks from the
constructor state and terminate. -/
def process (chunks : List (List Char)) : List PTok :=
  let (st, ts) := processChunks initPState chunks
  ts ++ finalTokens st

/-- Token kinds, from token-type.js. -/
inductive TokType where
  | keyword
  | operator
  | identifier
  | number
  | string
  deriving DecidableEq, Repr

/-- A token value: the JavaScript Token.value field holds a string for
keyword/identifier/operator/string tokens and a number for number
tokens. -/
inductive TokValue where
  | s (v : String)
  | n (v : Int)
  deriving DecidableEq, Repr

/-- A classified token with source position, from token.js. -/
structure Token where
  type : TokType
  value : TokValue
  line : Nat
  column : Nat
  deriving DecidableEq, Repr

/-- The fixed keyword set, from keywords.js. -/
def keywords : List String :=
  ["bool", "true", "false", "make", "assign", "if", "endif", "as", "repeat",
   "print", "free", "func", "return", "call", "into", "end",
   "sdlInit", "sdlWindow", "sdlRenderer", "sdlDelay", "sdlEvents",
   "sdlGetPixel", "sdlPutPixel", "sdlPresent", "sdlClear", "sdlSetColor",
   "sdlDrawLine", "sin", "cos", "rnd"]

/-- Modelled from the spec: the fixed operator set checked by the
Tokenizer. The module operators.js that tokenizer.js imports is not part
of the provided sources (only its import site and tests are); the
specification fixes the set as the eight single-character operators plus
the four two-character comparisons. -/
def operators : List String :=
  ["+", "-", "*", "/", "=", "<", ">", "%", "==", "!=", "<=", ">="]

/-- Decimal digit run to a number, none if any character is not a digit
(the NaN case of the JavaScript Number conversion) or the run is empty. -/
def digitsVal (cs : List Char) : Option Nat :=
  match cs with
  | [] => Option.none
  | _ =>
    cs.foldl
      (fun acc c =>
        match acc with
        | Option.none => Option.none
        | some a => if isDigit c then some (a * 10 + (c.toNat - '0'.toNat)) else Option.none)
      (some 0)

/-- The Number(text) conversion applied by the Tokenizer to number
preprocessing tokens, whose text is always an optional leading minus
followed by digits. -/
def numValue (s : String) : Option Int :=
  match s.toList with
  | '-' :: cs => (digitsVal cs).map (fun a => -(a : Int))
  | cs => (digitsVal cs).map (fun a => (a : Int))

/-- Tokenizer string handling: remove every single- and double-quote
character from the text (value.replaceAll for both quote characters). -/
def stripQuotes (s : String) : String :=
  String.mk (s.toList.filter (fun c => c != '\x27' && c != '\x22'))

/-- Tokenizer.process: classify each preprocessing token in order.
Identifier tokens become keyword or identifier tokens by the keyword set;
operator tokens outside the operator set and number tokens that fail
numeric conversion throw a TokenizerError carrying line and column,
aborting the stream; whitespace, linefeed, comment, unknown and eof
tokens are dropped. -/
def tokenize : List PTok → Except String (List Token)
  | [] => .ok []
  | p :: rest =>
    match p.type with
    | .identifier =>
      let k := if keywords.contains p.value then TokType.keyword else TokType.identifier
      (tokenize rest).map
        (fun ts => { type := k, value := .s p.value, line := p.line, column := p.column } :: ts)
    | .operator =>
      if operators.contains p.value then
        (tokenize rest).map
          (fun ts => { type := .operator, value := .s p.value, line := p.line, column := p.column } :: ts)
      else
        .error ("Invalid operator: " ++ p.value ++ " at line " ++ toString p.line ++
          ", column " ++ toString p.column)
    | .number =>
      match numValue p.value with
      | some v =>
        (tokenize rest).map
          (fun ts => { type := .number, value := .n v, line := p.line, column := p.column } :: ts)
      | Option.none =>
        .error ("Invalid number: " ++ p.value ++ " at line " ++ toString p.line ++
          ", column " ++ toString p.column)
    | .string =>
      (tokenize rest).map
        (fun ts =>
          { type := .string, value := .s (stripQuotes p.value), line := p.line, column := p.column } :: ts)
    | _ => tokenize rest

/-- IR expression nodes, from ir-nodes.js (Identifier, NumericLiteral,
StringLiteral, BinaryExpression, UnaryMinusExpression, SinExpression,
CosExpression). Source spans are not modelled. -/
inductive Expr where
  | identifier (name : String)
  | numericLiteral (value : Int)
  | stringLiteral (value : String)
  | binary (left : Expr) (op : String) (right : Expr)
  | unaryMinus (expression : Expr)
  | sinExpr (argument scale : Expr)
  | cosExpr (argument scale : Expr)
  deriving DecidableEq, Repr

/-- IR statement nodes, from ir-nodes.js (VariableDeclaration,
AssignmentExpression, PrintStatement, FreeStatement, IfStatement,
WhileStatement, FunctionDeclaration, ReturnStatement, CallStatement).
The graphics statement family is not modelled. -/
inductive Stmt where
  | variableDeclaration (identifier : String) (value : Expr)
  | assignment (left : String) (right : Expr)
  | printStmt (argument : Expr)
  | freeStmt (identifier : String)
  | ifStmt (test : Expr) (consequent : List Stmt)
  | whileStmt (test : Expr) (body : List Stmt)
  | funcDecl (name : String) (params : List String) (body : List Stmt)
  | returnStmt (argument : String)
  | callStmt (callee : String) (args : List Expr) (result : Option String)
  deriving Repr

/-- The string content of a token value. Keyword, identifier, operator and
string tokens always carry strings; the numeric case mirrors the decimal
rendering JavaScript would apply. -/
def tokValueStr : TokValue → String
  | .s v => v
  | .n v => toString v

/-- The numeric content of a token value; number tokens always carry
numbers. -/
def tokValueNum : TokValue → Int
  | .n v => v
  | .s v => (numValue v).getD 0

/-- ASTBuilder.canStartExpression: identifier, number, string, the sin/cos
keywords, or a unary minus. -/
def canStartExpression (t : Token) : Bool :=
  t.type == .identifier || t.type == .number || t.type == .string ||
  (t.type == .keyword && (t.value == .s "sin" || t.value == .s "cos")) ||
  (t.type == .operator && t.value == .s "-")

/-- True when the token is an operator token with the given lexeme. -/
def tokIsOp (t : Token) (v : String) : Bool :=
  t.type == .operator && t.value == .s v

/-- True when the token is a keyword token with the given lexeme. -/
def tokIsKw (t : Token) (v : String) : Bool :=
  t.type == .keyword && t.value == .s v

/-- The greedy parameter loop of the func branch of
ASTBuilder.parseStatement: consume identifiers while the next token is an
identifier. -/
def takeParams : List Token → List String × List Token
  | [] => ([], [])
  | t :: rest =>
    if t.type == .identifier then
      let (ps, ts) := takeParams rest
      (tokValueStr t.value :: ps, ts)
    else
      ([], t :: rest)

/-- The error raised when the source reads past the end of the buffered
token array (this.tokens[this.index++] yields undefined and the following
property access throws a TypeError). -/
def outOfTokens : String := "TypeError: Cannot read properties of undefined"

/-- The display JavaScript produces for a TokenType object interpolated
into a template literal; token-type.js has its toString commented out, so
the default object rendering is used. -/
def tokTypeDisplay (_ : TokType) : String := "[object Object]"

mutual

/-- ASTBuilder.parseBlock: parse statements until the closing keyword
(consumed) or, at top level (no closing keyword), until end of input;
running out of input with a required closer still missing throws an
ASTError naming that closer. -/
def parseBlockF : Nat → Option String → List Token → Except String (List Stmt × List Token)
  | 0, _, _ => .error "out of fuel"
  | fuel+1, endK, ts =>
    match ts with
    | [] =>
      match endK with
      | some k => .error ("Expected \x27" ++ k ++ "\x27")
      | Option.none => .ok ([], [])
    | t :: rest =>
      match endK with
      | some k =>
        if t.type == .keyword && t.value == .s k then
          .ok ([], rest)
        else do
          let (s, ts1) ← parseStatementF fuel ts
          let (ss, ts2) ← parseBlockF fuel endK ts1
          .ok (s :: ss, ts2)
      | Option.none => do
        let (s, ts1) ← parseStatementF fuel ts
        let (ss, ts2) ← parseBlockF fuel endK ts1
        .ok (s :: ss, ts2)

/-- ASTBuilder.parseStatement: dispatch on the leading keyword, or on
lookahead after a bare identifier (which must be a plain assignment). -/
def parseStatementF : Nat → List Token → Except String (Stmt × List Token)
  | 0, _ => .error "out of fuel"
  | fuel+1, ts =>
    match ts with
    | [] => .error outOfTokens
    | token :: rest =>
      if token.type == .keyword then
        if token.value == .s "make" then
          match rest with
          | [] => .error outOfTokens
          | idToken :: rest1 =>
            if idToken.type == .identifier then do
              let (expr, ts2) ← parseFullExpressionF fuel rest1
              .ok (.variableDeclaration (tokValueStr idToken.value) expr, ts2)
            else .error "Expected identifier after \x27make\x27"
        else if token.value == .s "assign" then
          match rest with
          | [] => .error outOfTokens
          | idToken :: rest1 =>
            if idToken.type == .identifier then do
              let (expr, ts2) ← parseFullExpressionF fuel rest1
              .ok (.assignment (tokValueStr idToken.value) expr, ts2)
            else .error "Expected identifier after \x27assign\x27"
        else if token.value == .s "print" then do
          let (expr, ts2) ← parseFullExpressionF fuel rest
          .ok (.printStmt expr, ts2)
        else if token.value == .s "free" then
          match rest with
          | [] => .error outOfTokens
          | idToken :: rest1 =>
            if idToken.type == .identifier then
              .ok (.freeStmt (tokValueStr idToken.value), rest1)
            else .error "Expected identifier after \x27free\x27"
        else if token.value == .s "if" then do
          let (test, ts2) ← parseFullExpressionF fuel rest
          let (consequent, ts3) ← parseBlockF fuel (some "endif") ts2
          .ok (.ifStmt test consequent, ts3)
        else if token.value == .s "as" then do
          let (test, ts2) ← parseFullExpressionF fuel rest
          let (body, ts3) ← parseBlockF fuel (some "repeat") ts2
          .ok (.whileStmt test body, ts3)
        else if token.value == .s "func" then
          match rest with
          | [] => .error outOfTokens
          | nameToken :: rest1 =>
            if nameToken.type == .identifier then do
              let (params, ts2) := takeParams rest1
              let (body, ts3) ← parseBlockF fuel (some "end") ts2
              .ok (.funcDecl (tokValueStr nameToken.value) params body, ts3)
            else .error "Expected identifier after \x27func\x27"
        else if token.value == .s "return" then
          match rest with
          | [] => .error outOfTokens
          | varToken :: rest1 =>
            if varToken.type == .identifier then
              .ok (.returnStmt (tokValueStr varToken.value), rest1)
            else .error "Expected identifier after \x27return\x27"
        else if token.value == .s "call" then
          match rest with
          | [] => .error outOfTokens
          | calleeToken :: rest1 =>
            if calleeToken.type == .identifier then do
              let (args, ts2) ← parseCallArgsF fuel rest1
              match ts2 with
              | intoTok :: rest2 =>
                if intoTok.type == .keyword && intoTok.value == .s "into" then
                  match rest2 with
                  | resTok :: rest3 =>
                    if resTok.type == .identifier then
                      .ok (.callStmt (tokValueStr calleeToken.value) args
                            (some (tokValueStr resTok.value)), rest3)
                    else .error "Expected identifier after \x27into\x27"
                  | [] => .error "Expected identifier after \x27into\x27"
                else
                  .ok (.callStmt (tokValueStr calleeToken.value) args Option.none, ts2)
              | [] => .ok (.callStmt (tokValueStr calleeToken.value) args Option.none, ts2)
            else .error "Expected identifier after \x27call\x27"
        else
          .error ("Unexpected keyword: " ++ tokValueStr token.value)
      else if token.type == .identifier then
        match rest with
        | [] => .error outOfTokens
        | opToken :: rest1 =>
          if opToken.type == .operator && opToken.value == .s "=" then do
            let (expr, ts2) ← parseFullExpressionF fuel rest1
            .ok (.assignment (tokValueStr token.value) expr, ts2)
          else .error "Expected \x27=\x27 after identifier"
      else
        .error ("Unexpected token: " ++ tokTypeDisplay token.type ++ " " ++
          tokValueStr token.value)

/-- The greedy argument loop of the call branch: parse full expressions
while the next token can start an expression. -/
def parseCallArgsF : Nat → List Token → Except String (List Expr × List Token)
  | 0, _ => .error "out of fuel"
  | fuel+1, ts =>
    match ts with
    | [] => .ok ([], [])
    | t :: _ =>
      if canStartExpression t then do
        let (e, ts1) ← parseFullExpressionF fuel ts
        let (es, ts2) ← parseCallArgsF fuel ts1
        .ok (e :: es, ts2)
      else
        .ok ([], ts)

/-- ASTBuilder.parseFullExpression: the expression entry point starts at
the comparison tier. -/
def parseFullExpressionF : Nat → List Token → Except String (Expr × List Token)
  | 0, _ => .error "out of fuel"
  | fuel+1, ts => parseComparisonF fuel ts

/-- ASTBuilder.parseComparison: one additive operand, then left-fold
comparison operators. -/
def parseComparisonF : Nat → List Token → Except String (Expr × List Token)
  | 0, _ => .error "out of fuel"
  | fuel+1, ts => do
    let (e, ts1) ← parseAdditiveF fuel ts
    parseComparisonLoopF fuel e ts1

/-- The comparison-tier fold loop: while the next token is a comparison
operator, consume it and fold a BinaryExpression with the accumulated
expression as left child. -/
def parseComparisonLoopF : Nat → Expr → List Token → Except String (Expr × List Token)
  | 0, _, _ => .error "out of fuel"
  | fuel+1, e, ts =>
    match ts with
    | [] => .ok (e, [])
    | t :: rest =>
      if t.type == .operator &&
          (t.value == .s "==" || t.value == .s "!=" || t.value == .s "<" ||
           t.value == .s ">" || t.value == .s "<=" || t.value == .s ">=") then do
        let (r, ts1) ← parseAdditiveF fuel rest
        parseComparisonLoopF fuel (.binary e (tokValueStr t.value) r) ts1
      else
        .ok (e, ts)

/-- ASTBuilder.parseAdditive: one multiplicative operand, then left-fold
additive operators. -/
def parseAdditiveF : Nat → List Token → Except String (Expr × List Token)
  | 0, _ => .error "out of fuel"
  | fuel+1, ts => do
    let (e, ts1) ← parseMultiplicativeF fuel ts
    parseAdditiveLoopF fuel e ts1

/-- The additive-tier fold loop (operators + and -). -/
def parseAdditiveLoopF : Nat → Expr → List Token → Except String (Expr × List Token)
  | 0, _, _ => .error "out of fuel"
  | fuel+1, e, ts =>
    match ts with
    | [] => .ok (e, [])
    | t :: rest =>
      if t.type == .operator && (t.value == .s "+" || t.value == .s "-") then do
        let (r, ts1) ← parseMultiplicativeF fuel rest
        parseAdditiveLoopF fuel (.binary e (tokValueStr t.value) r) ts1
      else
        .ok (e, ts)

/-- ASTBuilder.parseMultiplicative: one unary operand, then left-fold
multiplicative operators. -/
def parseMultiplicativeF : Nat → List Token → Except String (Expr × List Token)
  | 0, _ => .error "out of fuel"
  | fuel+1, ts => do
    let (e, ts1) ← parseUnaryF fuel ts
    parseMultiplicativeLoopF fuel e ts1

/-- The multiplicative-tier fold loop (operators *, / and %). -/
def parseMultiplicativeLoopF : Nat → Expr → List Token → Except String (Expr × List Token)
  | 0, _, _ => .error "out of fuel"
  | fuel+1, e, ts =>
    match ts with
    | [] => .ok (e, [])
    | t :: rest =>
      if t.type == .operator &&
          (t.value == .s "*" || t.value == .s "/" || t.value == .s "%") then do
        let (r, ts1) ← parseUnaryF fuel rest
        parseMultiplicativeLoopF fuel (.binary e (tokValueStr t.value) r) ts1
      else
        .ok (e, ts)

/-- ASTBuilder.parseUnary: a leading minus operator wraps a recursive
unary parse; otherwise parse a primary expression. -/
def parseUnaryF : Nat → List Token → Except String (Expr × List Token)
  | 0, _ => .error "out of fuel"
  | fuel+1, ts =>
    match ts with
    | t :: rest =>
      if t.type == .operator && t.value == .s "-" then do
        let (e, ts1) ← parseUnaryF fuel rest
        .ok (.unaryMinus e, ts1)
      else
        parsePrimaryF fuel ts
    | [] => parsePrimaryF fuel ts

/-- ASTBuilder.parsePrimary: identifier, numeric literal, string literal,
or the two-argument sin/cos builtins (each recursively parsing two full
sub-expressions). -/
def parsePrimaryF : Nat → List Token → Except String (Expr × List Token)
  | 0, _ => .error "out of fuel"
  | fuel+1, ts =>
    match ts with
    | [] => .error outOfTokens
    | token :: rest =>
      if token.type == .identifier then
        .ok (.identifier (tokValueStr token.value), rest)
      else if token.type == .number then
        .ok (.numericLiteral (tokValueNum token.value), rest)
      else if token.type == .string then
        .ok (.stringLiteral (tokValueStr token.value), rest)
      else if token.type == .keyword && token.value == .s "sin" then do
        let (arg, ts1) ← parseFullExpressionF fuel rest
        let (scale, ts2) ← parseFullExpressionF fuel ts1
        .ok (.sinExpr arg scale, ts2)
      else if token.type == .keyword && token.value == .s "cos" then do
        let (arg, ts1) ← parseFullExpressionF fuel rest
        let (scale, ts2) ← parseFullExpressionF fuel ts1
        .ok (.cosExpr arg scale, ts2)
      else
        .error ("Unexpected expression token: " ++ tokTypeDisplay token.type ++ " " ++
          tokValueStr token.value)

end

/-- ASTBuilder.parse: the program is one top-level block with no closing
keyword. -/
def parseProgramF (fuel : Nat) (ts : List Token) : Except String (List Stmt) :=
  (parseBlockF fuel Option.none ts).map (fun r => r.1)

/-- Shorthand for building an identifier token at a dummy position. -/
def idTok (v : String) : Token := { type := .identifier, value := .s v, line := 1, column := 1 }

/-- Shorthand for building an operator token at a dummy position. -/
def opTok (v : String) : Token := { type := .operator, value := .s v, line := 1, column := 1 }

/-- Shorthand for building a keyword token at a dummy position. -/
def kwTok (v : String) : Token := { type := .keyword, value := .s v, line := 1, column := 1 }

/-- Shorthand for building a number token at a dummy position. -/
def numTok (v : Int) : Token := { type := .number, value := .n v, line := 1, column := 1 }

/-- Shorthand for building a string token at a dummy position. -/
def strTok (v : String) : Token := { type := .string, value := .s v, line := 1, column := 1 }

/-- The two inferred types of the LLVM translator (the strings int and
string in varInfo.type and the signature table). -/
inductive CType where
  | int
  | string
  deriving DecidableEq, Repr

/-- JavaScript Map.get: the first binding for the key, if any (a JS Map
has at most one binding per key; these associationlists are only ever
extended through jsMapSet, which preserves that). -/
def jsMapGet {α : Type} : List (String × α) → String → Option α
  | [], _ => Option.none
  | (k0, v) :: rest, k => if k0 == k then some v else jsMapGet rest k

/-- JavaScript Map.set: replace the binding in place, else append. -/
def jsMapSet {α : Type} : List (String × α) → String → α → List (String × α)
  | [], k, v => [(k, v)]
  | (k0, v0) :: rest, k, v =>
    if k0 == k then (k0, v) :: rest else (k0, v0) :: jsMapSet rest k v

/-- LLVMTranslator.getExpressionType: identifiers look their type up in
the variable table, defaulting to int for an unresolved name; numeric
literals are int, string literals are string; a binary expression is
string exactly when its operator is + and either operand type is string
(comparisons and arithmetic are int); sin/cos and unary minus are int. -/
def getExpressionType (vars : String → Option CType) : Expr → CType
  | .identifier name =>
    match vars name with
    | some t => t
    | Option.none => .int
  | .numericLiteral _ => .int
  | .stringLiteral _ => .string
  | .binary l op r =>
    let leftType := getExpressionType vars l
    let rightType := getExpressionType vars r
    if op == "+" && (leftType == .string || rightType == .string) then .string
    else .int
  | .unaryMinus _ => .int
  | .sinExpr _ _ => .int
  | .cosExpr _ _ => .int

/-- The signature table: function name to inferred parameter types. -/
abbrev SigTable := List (String × List CType)

/-- The per-position merge of collectFunctionSignatures: when the recorded
and new types differ, an int position is upgraded by a string argument;
every other combination keeps the recorded type. -/
def mergeTypes (s a : CType) : CType :=
  match s, a with
  | .int, .string => .string
  | _, _ => s

/-- The signature-update loop of collectFunctionSignatures: positions
beyond the recorded signature are appended with the new argument type;
recorded positions are merged per mergeTypes; recorded positions beyond
the new argument list are kept. -/
def mergeSig : List CType → List CType → List CType
  | sig, [] => sig
  | [], a :: rest => a :: mergeSig [] rest
  | s :: ss, a :: rest => mergeTypes s a :: mergeSig ss rest

mutual

/-- One statement of the signature pre-pass: a call statement merges its
inferred argument types into the callee's running signature; function,
if and while bodies are traversed recursively; every other statement is
ignored. -/
def collectStmt (vars : String → Option CType) (table : SigTable) : Stmt → SigTable
  | .callStmt callee args _ =>
    let signature := (jsMapGet table callee).getD []
    let argTypes := args.map (getExpressionType vars)
    jsMapSet table callee (mergeSig signature argTypes)
  | .funcDecl _ _ body => collectFunctionSignatures vars table body
  | .ifStmt _ consequent => collectFunctionSignatures vars table consequent
  | .whileStmt _ body => collectFunctionSignatures vars table body
  | _ => table

/-- LLVMTranslator.collectFunctionSignatures over a statement list, in
program order. -/
def collectFunctionSignatures (vars : String → Option CType) (table : SigTable) :
    List Stmt → SigTable
  | [] => table
  | s :: rest => collectFunctionSignatures vars (collectStmt vars table s) rest

end

/-- Expression typing as the signature pre-pass sees it: translate() runs
collectFunctionSignatures(ir.statements) before translating any statement,
while this.variables still holds the empty map built in the constructor,
so the pre-pass types every expression against an empty variable table. -/
def getExpressionTypePre : Expr → CType :=
  getExpressionType (fun _ => Option.none)

/-- The signature table a translation run computes, as built at the start
of LLVMTranslator.translate: the pre-pass over the whole program against
the still-empty variable table. -/
def translateSignatures (statements : List Stmt) : SigTable :=
  collectFunctionSignatures (fun _ => Option.none) [] statements

/-- Runtime values of the heap model. A value is a pointer to an interned
global string constant (getStringConstant), a pointer returned by a
numbered malloc call, an integer, or a computed value the heap model does
not track (arithmetic results, loaded parameters). -/
inductive Val where
  | strConst (s : String)
  | heapBuf (id : Nat)
  | intVal (n : Int)
  | sym
  deriving DecidableEq, Repr

/-- The heap-relevant calls emitted during lowering, in emission order:
a call to malloc returning the id-th buffer, a call to free on a value,
and a store of a value into a named variable's stack slot. -/
inductive HeapEvent where
  | malloc (id : Nat)
  | free (v : Val)
  | store (name : String) (v : Val)
  deriving DecidableEq, Repr

/-- One entry of this.variables: the inferred type and the value currently
stored in the variable's stack slot (what a CreateLoad of it returns). -/
structure TVarInfo where
  type : CType
  stored : Val
  deriving DecidableEq, Repr

/-- The translator state threaded through lowering: the variable table,
the next fresh malloc id, the signature table, and the functions present
in the module. -/
structure TState where
  vars : List (String × TVarInfo)
  nextBuf : Nat
  sigs : SigTable
  funcNames : List String
  deriving Repr

/-- The type view of the variable table, as getExpressionType reads it. -/
def typeOfVar (st : TState) : String → Option CType :=
  fun n => (jsMapGet st.vars n).map (fun vi => vi.type)

/-- LLVMTranslator.translateExpression restricted to its heap behaviour:
each expression yields its runtime value, the updated state and the heap
events emitted, in emission order. Identifier loads, literals and
arithmetic emit no heap calls; a + on string operands follows stringConcat:
materialize each int operand into a fresh malloc'd decimal buffer, malloc
the result buffer, then free the materialized temporaries. -/
def translateExpr (st : TState) : Expr → Except String (Val × TState × List HeapEvent)
  | .identifier name =>
    match jsMapGet st.vars name with
    | Option.none => .error ("Undefined variable: " ++ name)
    | some vi => .ok (vi.stored, st, [])
  | .numericLiteral n => .ok (.intVal n, st, [])
  | .stringLiteral s => .ok (.strConst s, st, [])
  | .binary l op r => do
    let (lv, st1, ev1) ← translateExpr st l
    let (rv, st2, ev2) ← translateExpr st1 r
    let leftType := getExpressionType (typeOfVar st2) l
    let rightType := getExpressionType (typeOfVar st2) r
    if op == "+" && (leftType == .string || rightType == .string) then
      let (lstr, st3, evL) :=
        if leftType == .int then
          (Val.heapBuf st2.nextBuf, { st2 with nextBuf := st2.nextBuf + 1 },
           [HeapEvent.malloc st2.nextBuf])
        else (lv, st2, [])
      let (rstr, st4, evR) :=
        if rightType == .int then
          (Val.heapBuf st3.nextBuf, { st3 with nextBuf := st3.nextBuf + 1 },
           [HeapEvent.malloc st3.nextBuf])
        else (rv, st3, [])
      let bufId := st4.nextBuf
      let st5 := { st4 with nextBuf := bufId + 1 }
      let evTemps :=
        (if leftType == .int then [HeapEvent.free lstr] else []) ++
        (if rightType == .int then [HeapEvent.free rstr] else [])
      .ok (.heapBuf bufId, st5, ev1 ++ ev2 ++ evL ++ evR ++ [HeapEvent.malloc bufId] ++ evTemps)
    else
      .ok (.sym, st2, ev1 ++ ev2)
  | .unaryMinus e => do
    let (_, st1, ev1) ← translateExpr st e
    .ok (.sym, st1, ev1)
  | .sinExpr a b => do
    let (_, st1, ev1) ← translateExpr st a
    let (_, st2, ev2) ← translateExpr st1 b
    .ok (.sym, st2, ev1 ++ ev2)
  | .cosExpr a b => do
    let (_, st1, ev1) ← translateExpr st a
    let (_, st2, ev2) ← translateExpr st1 b
    .ok (.sym, st2, ev1 ++ ev2)

/-- The argument loop of the call branch of translateStatement. -/
def translateExprList (st : TState) : List Expr → Except String (TState × List HeapEvent)
  | [] => .ok (st, [])
  | e :: rest => do
    let (_, st1, ev1) ← translateExpr st e
    let (st2, ev2) ← translateExprList st1 rest
    .ok (st2, ev1 ++ ev2)

/-- The functions declared in the module before any statement is
translated, from declareRuntimeFunctions. -/
def runtimeFunctionNames : List String :=
  ["printf", "malloc", "free", "strcpy", "strcat", "strcmp", "sprintf", "strlen",
   "SDL_Init", "SDL_CreateWindow", "SDL_Quit", "SDL_Delay", "SDL_PollEvent", "exit",
   "SDL_CreateRenderer", "SDL_SetRenderDrawColor", "SDL_RenderDrawPoint",
   "SDL_RenderPresent", "SDL_RenderClear", "SDL_RenderDrawLine", "sin", "cos"]

mutual

/-- LLVMTranslator.translateStatement restricted to its heap behaviour.
A declaration with a string type and a string-literal initializer copies
the literal into a fresh malloc'd buffer before storing it; every other
declaration stores the translated value directly. A plain assignment into
a string variable first copies a string-literal right-hand side into a
fresh malloc'd buffer, then frees the value currently stored in the
variable, then stores the new value. An explicit free statement frees the
stored value of a string variable. If and while lower their condition and
then their body statements in order (the basic-block structure emits the
body instructions once, in program order). A function declaration saves
the variable table, translates its body in a fresh scope whose parameters
take their types from the signature table (defaulting to int), and
restores the saved table. A call checks the target function exists and,
given an into clause, stores the result into the already-declared result
variable. -/
def translateStmt (st : TState) : Stmt → Except String (TState × List HeapEvent)
  | .variableDeclaration identifier value => do
    let (v, st1, ev1) ← translateExpr st value
    match getExpressionType (typeOfVar st1) value with
    | .int =>
      .ok ({ st1 with vars := jsMapSet st1.vars identifier { type := .int, stored := v } },
           ev1 ++ [.store identifier v])
    | .string =>
      match value with
      | .stringLiteral _ =>
        let bufId := st1.nextBuf
        .ok ({ st1 with
               vars := jsMapSet st1.vars identifier { type := .string, stored := .heapBuf bufId },
               nextBuf := bufId + 1 },
             ev1 ++ [.malloc bufId, .store identifier (.heapBuf bufId)])
      | _ =>
        .ok ({ st1 with vars := jsMapSet st1.vars identifier { type := .string, stored := v } },
             ev1 ++ [.store identifier v])
  | .assignment left right => do
    let (v, st1, ev1) ← translateExpr st right
    match jsMapGet st1.vars left with
    | Option.none => .error ("Undefined variable: " ++ left)
    | some vi =>
      let isLit : Bool := match right with | .stringLiteral _ => true | _ => false
      let (finalValue, st2, evCopy) :=
        if vi.type == .string && isLit then
          (Val.heapBuf st1.nextBuf, { st1 with nextBuf := st1.nextBuf + 1 },
           [HeapEvent.malloc st1.nextBuf])
        else (v, st1, [])
      let evFree := if vi.type == .string then [HeapEvent.free vi.stored] else []
      .ok ({ st2 with vars := jsMapSet st2.vars left { vi with stored := finalValue } },
           ev1 ++ evCopy ++ evFree ++ [.store left finalValue])
  | .printStmt argument => do
    let (_, st1, ev1) ← translateExpr st argument
    .ok (st1, ev1)
  | .freeStmt identifier =>
    match jsMapGet st.vars identifier with
    | Option.none => .error ("Undefined variable: " ++ identifier)
    | some vi =>
      if vi.type == .string then .ok (st, [.free vi.stored]) else .ok (st, [])
  | .ifStmt test consequent => do
    let (_, st1, ev1) ← translateExpr st test
    let (st2, ev2) ← translateStmts st1 consequent
    .ok (st2, ev1 ++ ev2)
  | .whileStmt test body => do
    let (_, st1, ev1) ← translateExpr st test
    let (st2, ev2) ← translateStmts st1 body
    .ok (st2, ev1 ++ ev2)
  | .funcDecl name params body => do
    let signature := (jsMapGet st.sigs name).getD []
    let pvars := (params.enum).foldl
      (fun acc pi =>
        jsMapSet acc pi.2 { type := ((signature.get? pi.1).getD .int), stored := Val.sym })
      []
    let (stB, evB) ← translateStmts
      { st with vars := pvars, funcNames := name :: st.funcNames } body
    .ok ({ stB with vars := st.vars }, evB)
  | .returnStmt argument =>
    match jsMapGet st.vars argument with
    | Option.none => .error ("Undefined variable: " ++ argument)
    | some _ => .ok (st, [])
  | .callStmt callee args result =>
    if st.funcNames.contains callee then do
      let (st1, ev1) ← translateExprList st args
      match result with
      | Option.none => .ok (st1, ev1)
      | some resName =>
        match jsMapGet st1.vars resName with
        | Option.none => .error ("Undefined result variable: " ++ resName)
        | some vi =>
          .ok ({ st1 with vars := jsMapSet st1.vars resName { vi with stored := Val.sym } },
               ev1 ++ [.store resName Val.sym])
    else .error ("Undefined function: " ++ callee)

/-- The statement loop of translate and of the body translations. -/
def translateStmts (st : TState) : List Stmt → Except String (TState × List HeapEvent)
  | [] => .ok (st, [])
  | s :: rest => do
    let (st1, ev1) ← translateStmt st s
    let (st2, ev2) ← translateStmts st1 rest
    .ok (st2, ev1 ++ ev2)

end

/-- LLVMTranslator.translate restricted to its heap behaviour: build the
signature table with the pre-pass over the still-empty variable table,
then translate every statement in program order from an empty scope. -/
def translate (statements : List Stmt) : Except String (List HeapEvent) := do
  let sigs := translateSignatures statements
  let st0 : TState :=
    { vars := [], nextBuf := 0, sigs := sigs, funcNames := runtimeFunctionNames }
  let (_, ev) ← translateStmts st0 statements
  .ok ev

/-- The three instructions emitted for an Int division by the / case of
LLVMTranslator.translateBinaryExpression, in emission order: compare the
divisor against zero, select 1 for a zero divisor and the divisor itself
otherwise, and divide by the selected value. -/
inductive GuardInstr where
  | icmpEqZero
  | selectOneOrRight
  | sdivBySafe
  deriving DecidableEq, Repr

/-- The emission order of the guarded division. -/
def divGuardEmission : List GuardInstr := [.icmpEqZero, .selectOneOrRight, .sdivBySafe]

/-- The values produced so far while executing the guarded-division
snippet: the comparison flag, the selected divisor, and the division
result. -/
structure GuardState where
  cond : Option Bool
  safeDen : Option Int
  result : Option Int
  deriving DecidableEq, Repr

/-- Execution of one guarded-division instruction against runtime operand
values. The sdiv instruction models the LLVM trap on a zero divisor by
returning no successor state; signed division truncates toward zero. -/
def stepGuard (left right : Int) (st : GuardState) : GuardInstr → Option GuardState
  | .icmpEqZero => some { st with cond := some (decide (right = 0)) }
  | .selectOneOrRight =>
    match st.cond with
    | some c => some { st with safeDen := some (if c then 1 else right) }
    | Option.none => Option.none
  | .sdivBySafe =>
    match st.safeDen with
    | some d =>
      if d = 0 then Option.none
      else some { st with result := some (Int.tdiv left d) }
    | Option.none => Option.none

/-- Execute the emitted guarded-division snippet on runtime operands. -/
def runGuard (left right : Int) : Option GuardState :=
  divGuardEmission.foldlM (stepGuard left right)
    { cond := Option.none, safeDen := Option.none, result := Option.none }

/-- A character the string FSM state accumulates: letter, digit,
whitespace, or allowable punctuation. -/
def isStringBodyChar (c : Char) : Bool :=
  isLetter c || isDigit c || isWhitespace c || isStringAllowable c

/-- A block context a statement can be nested inside: an if body, a while
body, or a function body. -/
inductive Ctx where
  | inIf (test : Expr)
  | inWhile (test : Expr)
  | inFunc (name : String) (params : List String)

/-- Nest a statement inside a stack of block contexts. -/
def wrapCtx : List Ctx → Stmt → Stmt
  | [], s => s
  | .inIf t :: rest, s => .ifStmt t [wrapCtx rest s]
  | .inWhile t :: rest, s => .whileStmt t [wrapCtx rest s]
  | .inFunc n ps :: rest, s => .funcDecl n ps [wrapCtx rest s]

mutual

/-- True when the statement contains (possibly nested inside if/while/func
bodies, following exactly the traversal of the signature pre-pass) a call
to f whose argument at position j has pre-pass type string. -/
def stmtHasStringArgAt (f : String) (j : Nat) : Stmt → Bool
  | .callStmt callee args _ =>
    callee == f && ((args.map getExpressionTypePre).get? j == some CType.string)
  | .funcDecl _ _ body => stmtsHaveStringArgAt f j body
  | .ifStmt _ consequent => stmtsHaveStringArgAt f j consequent
  | .whileStmt _ body => stmtsHaveStringArgAt f j body
  | _ => false

/-- stmtHasStringArgAt over a statement list. -/
def stmtsHaveStringArgAt (f : String) (j : Nat) : List Stmt → Bool
  | [] => false
  | s :: rest => stmtHasStringArgAt f j s || stmtsHaveStringArgAt f j rest

end

/-- The program of claim C1: declare one string variable with a
string-literal initializer, then reassign it once per element of ss, each
time to a fresh string literal. -/
def reassignProg (x s0 : String) (ss : List String) : List Stmt :=
  .variableDeclaration x (.stringLiteral s0) :: ss.map (fun s => .assignment x (.stringLiteral s))

/-- The heap-event trace the n reassignments emit once the variable owns
buffer b: each assignment mallocs the next buffer, frees the previously
owned one, and stores the new one. -/
def reassignTail (x : String) (b : Nat) : Nat → List HeapEvent
  | 0 => []
  | n+1 =>
    [.malloc (b+1), .free (.heapBuf b), .store x (.heapBuf (b+1))] ++ reassignTail x (b+1) n

/-- The full heap-event trace of claim C1's program: the declaration
mallocs buffer 0 and stores it, then the reassignment tail runs. -/
def reassignTrace (x : String) (n : Nat) : List HeapEvent :=
  [.malloc 0, .store x (.heapBuf 0)] ++ reassignTail x 0 n

/-- The lexer state immediately after an opening quote read from the
initial constructor state: string FSM state, the quote accumulated into
the current token at 1:1, cursor at column 2. -/
def stringStartState (q : Char) : PState :=
  { state := .string,
    cur := { type := .none, value := String.mk [q], line := 1, column := 1 },
    line := 1,
    column := 2 }

/-- The lexer-state invariant: in the identifier and number FSM states
the token under construction already carries its kind (stamped when the
state was entered), so finalizing it emits a correctly-typed token. -/
def PInv (st : PState) : Prop :=
  (st.state = .identifier → st.cur.type = .identifier) ∧
  (st.state = .number → st.cur.type = .number)

/-- The malloc events of a trace. -/
def mallocEvents (evs : List HeapEvent) : List Nat :=
  evs.filterMap fun e => match e with | .malloc id => some id | _ => Option.none

/-- The freed values of a trace, in order. -/
def freedVals (evs : List HeapEvent) : List Val :=
  evs.filterMap fun e => match e with | .free v => some v | _ => Option.none

/-- Claim C3: parsing the token sequence for x = a + b * c produces
Assignment(x, Binary(+, Identifier(a), Binary(*, Identifier(b),
Identifier(c)))); for every expression mixing an additive and a
multiplicative operator the multiplicative operator binds tighter than
the additive one, and operators within one precedence tier fold
left-associatively. -/
theorem claim_C3_precedence :
    (parseStatementF 50
        [idTok "x", opTok "=", idTok "a", opTok "+", idTok "b", opTok "*", idTok "c"] =
      .ok (.assignment "x"
        (.binary (.identifier "a") "+" (.binary (.identifier "b") "*" (.identifier "c"))), [])) ∧
    (∀ a b c add mul, (add = "+" ∨ add = "-") → (mul = "*" ∨ mul = "/" ∨ mul = "%") →
      parseFullExpressionF 50 [idTok a, opTok add, idTok b, opTok mul, idTok c] =
        .ok (.binary (.identifier a) add (.binary (.identifier b) mul (.identifier c)), []) ∧
      parseFullExpressionF 50 [idTok a, opTok mul, idTok b, opTok add, idTok c] =
        .ok (.binary (.binary (.identifier a) mul (.identifier b)) add (.identifier c), [])) ∧
    (∀ a b c add1 add2, (add1 = "+" ∨ add1 = "-") → (add2 = "+" ∨ add2 = "-") →
      parseFullExpressionF 50 [idTok a, opTok add1, idTok b, opTok add2, idTok c] =
        .ok (.binary (.binary (.identifier a) add1 (.identifier b)) add2 (.identifier c), [])) ∧
    (∀ a b c mul1 mul2, (mul1 = "*" ∨ mul1 = "/" ∨ mul1 = "%") →
        (mul2 = "*" ∨ mul2 = "/" ∨ mul2 = "%") →
      parseFullExpressionF 50 [idTok a, opTok mul1, idTok b, opTok mul2, idTok c] =
        .ok (.binary (.binary (.identifier a) mul1 (.identifier b)) mul2 (.identifier c), [])) := by
  refine ⟨by rfl, ?_, ?_, ?_⟩
  · intro a b c add mul h1 h2
    rcases h1 with rfl | rfl <;> rcases h2 with rfl | rfl | rfl <;> exact ⟨rfl, rfl⟩
  · intro a b c add1 add2 h1 h2
    rcases h1 with rfl | rfl <;> rcases h2 with rfl | rfl <;> rfl
  · intro a b c mul1 mul2 h1 h2
    rcases h1 with rfl | rfl | rfl <;> rcases h2 with rfl | rfl | rfl <;> rfl

/-- Claim C3 witness: the general precedence conjunct applied at the
concrete identifiers of the claim with + and *. -/
theorem claim_C3_precedence_witness :
    parseFullExpressionF 50 [idTok "a", opTok "+", idTok "b", opTok "*", idTok "c"] =
      .ok (.binary (.identifier "a") "+"
        (.binary (.identifier "b") "*" (.identifier "c")), []) :=
  (claim_C3_precedence.2.1 "a" "b" "c" "+" "*" (Or.inl rfl) (Or.inl rfl)).1

/-- Claim C4 counterexample: delivering -123 as the two chunks - and 123
does not lex to a single number preprocessing token; the minus lexes as
an operator token followed by a separate number token, because the
minus-then-digit lookahead reads only within the chunk being processed. -/
theorem claim_C4_counterexample :
    process [("-".toList), ("123".toList)] =
      [{ type := .operator, value := "-", line := 1, column := 1 },
       { type := .number, value := "123", line := 1, column := 2 },
       { type := .eof, value := "", line := 1, column := 5 }] ∧
    process [("-".toList), ("123".toList)] ≠
      [{ type := .number, value := "-123", line := 1, column := 1 },
       { type := .eof, value := "", line := 1, column := 5 }] := by
  exact ⟨by decide, by decide⟩

/-- Claim C4 (amended): the input -123 lexes to a single number
preprocessing token with text -123, tokenizing to numeric value -123, for
every delivery split whose boundary does not fall immediately after the
minus sign; a split just after the minus instead yields an operator token
followed by a number token, since the minus-then-digit lookahead is
chunk-local. -/
theorem claim_C4_chunked_negative_number :
    ∀ k : Nat, k ≤ 4 → k ≠ 1 →
      process [(("-123".toList).take k), (("-123".toList).drop k)] =
        [{ type := .number, value := "-123", line := 1, column := 1 },
         { type := .eof, value := "", line := 1, column := 5 }] ∧
      tokenize (process [(("-123".toList).take k), (("-123".toList).drop k)]) =
        .ok [{ type := .number, value := .n (-123), line := 1, column := 1 }] := by
  intro k hk hne
  interval_cases k
  · exact ⟨by decide, by rfl⟩
  · exact absurd rfl hne
  · exact ⟨by decide, by rfl⟩
  · exact ⟨by decide, by rfl⟩
  · exact ⟨by decide, by rfl⟩

/-- Claim C4 witness: the amended theorem applied at the unsplit input. -/
theorem claim_C4_chunked_negative_number_witness :
    process [(("-123".toList).take 4), (("-123".toList).drop 4)] =
      [{ type := .number, value := "-123", line := 1, column := 1 },
       { type := .eof, value := "", line := 1, column := 5 }] ∧
    tokenize (process [(("-123".toList).take 4), (("-123".toList).drop 4)]) =
      .ok [{ type := .number, value := .n (-123), line := 1, column := 1 }] :=
  claim_C4_chunked_negative_number 4 (by decide) (by decide)

/-- Claim C5 counterexample: inside a double-quoted literal a single
quote terminates the string. Lexing the five characters double-quote, x,
single-quote, y, double-quote emits a string token that stops at the
single quote (followed by an identifier and a second string token), not a
single string token spanning the whole literal as the claim requires. -/
theorem claim_C5_counterexample :
    process [("\x22x\x27y\x22".toList)] =
      [{ type := .string, value := "\x22x\x27", line := 1, column := 1 },
       { type := .identifier, value := "y", line := 1, column := 4 },
       { type := .string, value := "\x22", line := 1, column := 5 },
       { type := .eof, value := "", line := 1, column := 6 }] ∧
    (process [("\x22x\x27y\x22".toList)]).head? ≠
      some { type := .string, value := "\x22x\x27y\x22", line := 1, column := 1 } := by
  exact ⟨by decide, by decide⟩

/-- A quote character is not accumulated by the string state: it is
neither letter, digit, whitespace nor allowable punctuation. -/
theorem quote_not_accum {c : Char} (h : isQuote c = true) :
    (isLetter c || isDigit c || isWhitespace c || isStringAllowable c) = false := by
  have h2 : c = '\x22' ∨ c = '\x27' := by
    rcases Bool.or_eq_true_iff.mp h with h1 | h1
    · exact Or.inl (by exact eq_of_beq h1)
    · exact Or.inr (by exact eq_of_beq h1)
  rcases h2 with rfl | rfl <;> decide

/-- Folding push over a character list appends it to the string data. -/
theorem foldl_push (body : List Char) : ∀ (l : List Char),
    body.foldl (fun s c => s.push c) (String.mk l) = String.mk (l ++ body) := by
  induction body with
  | nil => intro l; simp
  | cons c rest ih =>
    intro l
    have h1 : (String.mk l).push c = String.mk (l ++ [c]) := rfl
    simp only [List.foldl_cons, h1, ih]
    simp

/-- In the string FSM state, a run of accumulated characters followed by
any quote character extends the current token by those characters and the
quote, emits it as a string token, and returns to the initial state. -/
theorem processChars_string_accum (body : List Char) :
    ∀ (st : PState) (q2 : Char), st.state = .string →
      (∀ c ∈ body, isStringBodyChar c = true) → isQuote q2 = true →
      processChars st (body ++ [q2]) =
        ({ st with
           cur := emptyPTok,
           state := .initial,
           column := st.column + (body.length + 1) },
         [{ st.cur with
            type := .string,
            value := (body.foldl (fun s c => s.push c) st.cur.value).push q2 }]) := by
  induction body with
  | nil =>
    intro st q2 hst hb hq
    obtain ⟨state, cur, line, col⟩ := st
    simp only at hst
    subst hst
    simp only [List.nil_append, processChars, quote_not_accum hq, hq, if_true, if_false,
      Bool.false_eq_true, List.foldl_nil]
    simp
  | cons c rest ih =>
    intro st q2 hst hb hq
    have hc' : (isLetter c || isDigit c || isWhitespace c || isStringAllowable c) = true :=
      hb c (List.mem_cons_self c rest)
    obtain ⟨state, cur, line, col⟩ := st
    simp only at hst
    subst hst
    simp only [List.cons_append, List.append_eq, processChars, hc', if_true]
    rw [ih (appendCur { state := .string, cur := cur, line := line, column := col } c) q2 rfl
        (fun d hd => hb d (List.mem_cons_of_mem c hd)) hq]
    simp only [appendCur, List.foldl_cons, List.length_cons]
    have hcol : col + 1 + (rest.length + 1) = col + (rest.length + 1 + 1) := by omega
    rw [hcol]

/-- Claim C5 (amended): a quote character starts a string literal whose
body accumulates letters, digits, whitespace and allowable punctuation,
and the literal is terminated by the next quote character of either kind;
the closing quote need not match the opening quote. The token carries the
full text including both quotes and the end-of-input token follows. -/
theorem claim_C5_string_termination :
    ∀ (q1 q2 : Char) (body : List Char),
      isQuote q1 = true → isQuote q2 = true →
      (∀ c ∈ body, isStringBodyChar c = true) →
      process [q1 :: (body ++ [q2])] =
        [{ type := .string, value := String.mk (q1 :: (body ++ [q2])),
           line := 1, column := 1 },
         { type := .eof, value := "", line := 1, column := body.length + 3 }] := by
  intro q1 q2 body hq1 hq2 hb
  have h2 : q1 = '\x22' ∨ q1 = '\x27' := by
    rcases Bool.or_eq_true_iff.mp hq1 with h1 | h1
    · exact Or.inl (by exact eq_of_beq h1)
    · exact Or.inr (by exact eq_of_beq h1)
  have hval : ∀ (v : String), v = String.mk [q1] →
      ((body.foldl (fun s c => s.push c) v).push q2) = String.mk (q1 :: (body ++ [q2])) := by
    intro v hv
    subst hv
    rw [foldl_push body [q1]]
    rfl
  rcases h2 with rfl | rfl
  · have hA : process ['\x22' :: (body ++ [q2])] =
        ((processChars (stringStartState '\x22') (body ++ [q2])).2 ++ []) ++
          finalTokens (processChars (stringStartState '\x22') (body ++ [q2])).1 := rfl
    rw [hA, processChars_string_accum body _ q2 rfl hb hq2]
    simp only [List.append_nil, finalTokens, stringStartState, if_true, ite_true,
      List.nil_append, List.singleton_append]
    rw [hval { data := ['\x22'] } rfl]
    have hcol : 2 + (body.length + 1) = body.length + 3 := by omega
    rw [hcol]
  · have hA : process ['\x27' :: (body ++ [q2])] =
        ((processChars (stringStartState '\x27') (body ++ [q2])).2 ++ []) ++
          finalTokens (processChars (stringStartState '\x27') (body ++ [q2])).1 := rfl
    rw [hA, processChars_string_accum body _ q2 rfl hb hq2]
    simp only [List.append_nil, finalTokens, stringStartState, if_true, ite_true,
      List.nil_append, List.singleton_append]
    rw [hval { data := ['\x27'] } rfl]
    have hcol : 2 + (body.length + 1) = body.length + 3 := by omega
    rw [hcol]

/-- Claim C5 witness: the amended theorem applied to a double-quote
opener, the one-character body a, and a single-quote closer. -/
theorem claim_C5_string_termination_witness :
    process [('\x22' :: ((['a']) ++ ['\x27']))] =
      [{ type := .string, value := String.mk ('\x22' :: ((['a']) ++ ['\x27'])),
         line := 1, column := 1 },
       { type := .eof, value := "", line := 1, column := 4 }] :=
  claim_C5_string_termination '\x22' '\x27' ['a'] (by decide) (by decide) (by decide)

/-- Claim C6 counterexample: in the token sequence as x < 2 endif the
block opener as is never followed by its required closer repeat before
end of input, yet the parse error does not name repeat: the body
statement fails first with an unexpected-keyword error about endif. -/
theorem claim_C6_counterexample :
    parseProgramF 50 [kwTok "as", idTok "x", opTok "<", numTok 2, kwTok "endif"] =
      .error "Unexpected keyword: endif" ∧
    ¬ List.IsInfix "repeat".toList "Unexpected keyword: endif".toList := by
  exact ⟨by rfl, by decide⟩

/-- Claim C6 (amended): when parsing reaches end of input with a block
still open because every body statement parsed, the error names the
expected closing keyword, for any closer; in particular the if block of
the claim fails naming endif, an as block fails naming repeat and a func
body fails naming end. A body statement that itself fails to parse
surfaces its own error instead. -/
theorem claim_C6_missing_closer :
    (∀ fuel : Nat, ∀ k : String,
      parseBlockF (fuel+1) (some k) [] = .error ("Expected \x27" ++ k ++ "\x27")) ∧
    parseProgramF 50 [kwTok "if", idTok "x", opTok "==", numTok 1, kwTok "print", strTok "yes"] =
      .error "Expected \x27endif\x27" ∧
    parseProgramF 50 [kwTok "as", idTok "x", opTok "<", numTok 2, kwTok "print", strTok "y"] =
      .error "Expected \x27repeat\x27" ∧
    parseProgramF 50 [kwTok "func", idTok "f", kwTok "print", strTok "y"] =
      .error "Expected \x27end\x27" := by
  exact ⟨fun _ _ => rfl, by rfl, by rfl, by rfl⟩

/-- Claim C7: lexing a +++ b folds the three consecutive plus characters
into a single operator preprocessing token at line 1, column 3 (maximal
munch), and tokenizing that stream throws the invalid-operator error
carrying that token text and its line and column, emitting no operator
token for it. -/
theorem claim_C7_invalid_operator :
    process [("a +++ b".toList)] =
      [{ type := .identifier, value := "a", line := 1, column := 1 },
       { type := .whitespace, value := "", line := 1, column := 2 },
       { type := .operator, value := "+++", line := 1, column := 3 },
       { type := .whitespace, value := "", line := 1, column := 6 },
       { type := .identifier, value := "b", line := 1, column := 7 },
       { type := .eof, value := "", line := 1, column := 8 }] ∧
    tokenize (process [("a +++ b".toList)]) =
      .error "Invalid operator: +++ at line 1, column 3" := by
  exact ⟨by decide, by rfl⟩

/-- Claim C9: the / case of translateBinaryExpression guards the divisor
with a select before the signed division: executing the emitted snippet
always succeeds (the division never sees a zero divisor), the selected
divisor is 1 exactly when the runtime divisor is 0 and the divisor itself
otherwise, and x / 0 evaluates to x. -/
theorem claim_C9_div_guard (x d : Int) :
    runGuard x d =
      some { cond := some (decide (d = 0)),
             safeDen := some (if d = 0 then 1 else d),
             result := some (Int.tdiv x (if d = 0 then 1 else d)) } ∧
    runGuard x 0 =
      some { cond := some true, safeDen := some 1, result := some x } := by
  constructor
  · by_cases hd : d = 0
    · subst hd
      simp [runGuard, divGuardEmission, stepGuard, List.foldlM]
    · simp [runGuard, divGuardEmission, stepGuard, List.foldlM, hd]
  · simp [runGuard, divGuardEmission, stepGuard, List.foldlM, Int.tdiv_one]

/-- Handling a character in the initial state never emits an end-of-input
token and re-establishes the lexer-state invariant. -/
theorem stepInitial_inv (st : PState) (c : Char) (rest : List Char)
    (hinit : st.state = .initial) :
    (∀ t ∈ (stepInitial st c rest).2, t.type ≠ .eof) ∧ PInv (stepInitial st c rest).1 := by
  obtain ⟨state, cur, line, col⟩ := st
  simp only at hinit
  subst hinit
  unfold stepInitial startCur PInv
  split_ifs <;> simp_all [emptyPTok]

/-- The retreat path never emits an end-of-input token and re-establishes
the lexer-state invariant, whenever it is entered from one of the four
states that use it. -/
theorem retreatInitial_inv (st : PState) (c : Char) (rest : List Char)
    (hstates : st.state = .operator ∨ st.state = .whitespace ∨
      st.state = .identifier ∨ st.state = .number)
    (hinv : PInv st) :
    (∀ t ∈ (retreatInitial st c rest).2, t.type ≠ .eof) ∧ PInv (retreatInitial st c rest).1 := by
  obtain ⟨state, cur, line, col⟩ := st
  simp only at hstates
  have hstep := stepInitial_inv
    { state := .initial, cur := emptyPTok, line := line, column := col } c rest rfl
  rcases hstates with rfl | rfl | rfl | rfl <;>
    (refine ⟨?_, hstep.2⟩
     intro t ht
     simp only [retreatInitial, finalizeCurrentToken, Option.toList] at ht
     rcases List.mem_append.mp ht with h0 | h2
     · simp only [List.mem_singleton] at h0
       subst h0
       simp_all [PInv]
     · exact hstep.1 t h2)

/-- The per-chunk loop never emits an end-of-input token and preserves
the lexer-state invariant. -/
theorem processChars_inv (chars : List Char) : ∀ (st : PState), PInv st →
    (∀ t ∈ (processChars st chars).2, t.type ≠ .eof) ∧ PInv (processChars st chars).1 := by
  induction chars with
  | nil =>
    intro st hinv
    exact ⟨fun t ht => by simp [processChars] at ht, hinv⟩
  | cons c rest ih =>
    intro st hinv
    obtain ⟨state, cur, line, col⟩ := st
    cases state with
    | initial =>
      have hstep := stepInitial_inv ⟨.initial, cur, line, col⟩ c rest rfl
      have hrec := ih (stepInitial ⟨.initial, cur, line, col⟩ c rest).1 hstep.2
      refine ⟨?_, hrec.2⟩
      intro t ht
      have ht' : t ∈ (stepInitial ⟨.initial, cur, line, col⟩ c rest).2 ++
          (processChars (stepInitial ⟨.initial, cur, line, col⟩ c rest).1 rest).2 := ht
      rcases List.mem_append.mp ht' with h1 | h2
      · exact hstep.1 t h1
      · exact hrec.1 t h2
    | operator =>
      simp only [processChars]
      split
      · exact ih (appendCur ⟨.operator, cur, line, col⟩ c)
          ⟨by intro h; simp [appendCur] at h, by intro h; simp [appendCur] at h⟩
      · have hr := retreatInitial_inv ⟨.operator, cur, line, col⟩ c rest (Or.inl rfl) hinv
        have hrec := ih (retreatInitial ⟨.operator, cur, line, col⟩ c rest).1 hr.2
        refine ⟨?_, hrec.2⟩
        intro t ht
        have ht' : t ∈ (retreatInitial ⟨.operator, cur, line, col⟩ c rest).2 ++
            (processChars (retreatInitial ⟨.operator, cur, line, col⟩ c rest).1 rest).2 := ht
        rcases List.mem_append.mp ht' with h1 | h2
        · exact hr.1 t h1
        · exact hrec.1 t h2
    | string =>
      simp only [processChars]
      split
      · exact ih (appendCur ⟨.string, cur, line, col⟩ c)
          ⟨by intro h; simp [appendCur] at h, by intro h; simp [appendCur] at h⟩
      · split
        · have hrec := ih ⟨.initial, emptyPTok, line, col + 1⟩
            ⟨by intro h; simp at h, by intro h; simp at h⟩
          refine ⟨?_, hrec.2⟩
          intro t ht
          have ht' : t ∈ ({ cur with type := PTokType.string, value := cur.value.push c } : PTok) ::
              (processChars ⟨.initial, emptyPTok, line, col + 1⟩ rest).2 := ht
          rcases List.mem_cons.mp ht' with h1 | h2
          · subst h1; simp
          · exact hrec.1 t h2
        · exact ih ⟨.string, cur, line, col + 1⟩
            ⟨by intro h; simp at h, by intro h; simp at h⟩
    | whitespace =>
      simp only [processChars]
      split
      · exact ih ⟨.whitespace, cur, line, col + 1⟩
          ⟨by intro h; simp at h, by intro h; simp at h⟩
      · have hr := retreatInitial_inv ⟨.whitespace, cur, line, col⟩ c rest (Or.inr (Or.inl rfl)) hinv
        have hrec := ih (retreatInitial ⟨.whitespace, cur, line, col⟩ c rest).1 hr.2
        refine ⟨?_, hrec.2⟩
        intro t ht
        have ht' : t ∈ (retreatInitial ⟨.whitespace, cur, line, col⟩ c rest).2 ++
            (processChars (retreatInitial ⟨.whitespace, cur, line, col⟩ c rest).1 rest).2 := ht
        rcases List.mem_append.mp ht' with h1 | h2
        · exact hr.1 t h1
        · exact hrec.1 t h2
    | identifier =>
      simp only [processChars]
      split
      · refine ih (appendCur ⟨.identifier, cur, line, col⟩ c) ⟨?_, ?_⟩
        · intro _
          simpa [appendCur] using hinv.1 rfl
        · intro h; simp [appendCur] at h
      · have hr := retreatInitial_inv ⟨.identifier, cur, line, col⟩ c rest
          (Or.inr (Or.inr (Or.inl rfl))) hinv
        have hrec := ih (retreatInitial ⟨.identifier, cur, line, col⟩ c rest).1 hr.2
        refine ⟨?_, hrec.2⟩
        intro t ht
        have ht' : t ∈ (retreatInitial ⟨.identifier, cur, line, col⟩ c rest).2 ++
            (processChars (retreatInitial ⟨.identifier, cur, line, col⟩ c rest).1 rest).2 := ht
        rcases List.mem_append.mp ht' with h1 | h2
        · exact hr.1 t h1
        · exact hrec.1 t h2
    | number =>
      simp only [processChars]
      split
      · refine ih (appendCur ⟨.number, cur, line, col⟩ c) ⟨?_, ?_⟩
        · intro h; simp [appendCur] at h
        · intro _
          simpa [appendCur] using hinv.2 rfl
      · have hr := retreatInitial_inv ⟨.number, cur, line, col⟩ c rest
          (Or.inr (Or.inr (Or.inr rfl))) hinv
        have hrec := ih (retreatInitial ⟨.number, cur, line, col⟩ c rest).1 hr.2
        refine ⟨?_, hrec.2⟩
        intro t ht
        have ht' : t ∈ (retreatInitial ⟨.number, cur, line, col⟩ c rest).2 ++
            (processChars (retreatInitial ⟨.number, cur, line, col⟩ c rest).1 rest).2 := ht
        rcases List.mem_append.mp ht' with h1 | h2
        · exact hr.1 t h1
        · exact hrec.1 t h2
    | comment =>
      simp only [processChars]
      split
      · exact ih ⟨.initial, emptyPTok, line + 1, 1⟩
          ⟨by intro h; simp at h, by intro h; simp at h⟩
      · exact ih ⟨.comment, cur, line, col + 1⟩
          ⟨by intro h; simp at h, by intro h; simp at h⟩

/-- The chunk loop never emits an end-of-input token and preserves the
lexer-state invariant. -/
theorem processChunks_inv (chunks : List (List Char)) : ∀ (st : PState), PInv st →
    (∀ t ∈ (processChunks st chunks).2, t.type ≠ .eof) ∧ PInv (processChunks st chunks).1 := by
  induction chunks with
  | nil =>
    intro st hinv
    exact ⟨fun t ht => by simp [processChunks] at ht, hinv⟩
  | cons ch rest ih =>
    intro st hinv
    have h1 := processChars_inv ch st hinv
    have h2 := ih (processChars st ch).1 h1.2
    refine ⟨?_, h2.2⟩
    intro t ht
    have ht' : t ∈ (processChars st ch).2 ++
        (processChunks (processChars st ch).1 rest).2 := ht
    rcases List.mem_append.mp ht' with ha | hb
    · exact h1.1 t ha
    · exact h2.1 t hb

/-- Claim C8: when the input ends while the lexer is inside a string
literal, lexing raises no error: the accumulated token is emitted as a
string preprocessing token at termination, followed by the single
end-of-input token (no token emitted during chunk processing is an
end-of-input token, and the full output contains exactly one). -/
theorem claim_C8_unterminated_string (chunks : List (List Char)) :
    (processChunks initPState chunks).1.state = .string →
    process chunks =
      (processChunks initPState chunks).2 ++
        [{ (processChunks initPState chunks).1.cur with type := PTokType.string },
         { type := .eof, value := "",
           line := (processChunks initPState chunks).1.line,
           column := (processChunks initPState chunks).1.column }] ∧
    (∀ t ∈ (processChunks initPState chunks).2, t.type ≠ .eof) ∧
    ((process chunks).filter (fun t => t.type == PTokType.eof)).length = 1 := by
  intro hstr
  have hinv := processChunks_inv chunks initPState
    ⟨by intro h; simp [initPState] at h, by intro h; simp [initPState] at h⟩
  have hproc : process chunks =
      (processChunks initPState chunks).2 ++ finalTokens (processChunks initPState chunks).1 := rfl
  have hfin : finalTokens (processChunks initPState chunks).1 =
      [{ (processChunks initPState chunks).1.cur with type := PTokType.string },
       { type := .eof, value := "",
         line := (processChunks initPState chunks).1.line,
         column := (processChunks initPState chunks).1.column }] := by
    simp [finalTokens, finalizeCurrentToken, hstr]
  refine ⟨by rw [hproc, hfin], hinv.1, ?_⟩
  rw [hproc, hfin, List.filter_append]
  have hnil : ((processChunks initPState chunks).2).filter (fun t => t.type == PTokType.eof) = [] := by
    rw [List.filter_eq_nil_iff]
    intro t ht
    simpa using hinv.1 t ht
  rw [hnil]
  rfl

/-- Claim C8 witness: the theorem applied to the single chunk containing
an opening quote and two body characters with no closing quote. -/
theorem claim_C8_unterminated_string_witness :
    (processChunks initPState [("\x27ab".toList)]).1.state = .string ∧
    (process [("\x27ab".toList)] =
      (processChunks initPState [("\x27ab".toList)]).2 ++
        [{ (processChunks initPState [("\x27ab".toList)]).1.cur with type := PTokType.string },
         { type := .eof, value := "",
           line := (processChunks initPState [("\x27ab".toList)]).1.line,
           column := (processChunks initPState [("\x27ab".toList)]).1.column }] ∧
     (∀ t ∈ (processChunks initPState [("\x27ab".toList)]).2, t.type ≠ .eof) ∧
     ((process [("\x27ab".toList)]).filter (fun t => t.type == PTokType.eof)).length = 1) :=
  ⟨by decide, claim_C8_unterminated_string [("\x27ab".toList)] (by decide)⟩

/-- Map.set followed by Map.get on the same key yields the new value. -/
theorem jsMapGet_set_self {α : Type} (t : List (String × α)) (k : String) (v : α) :
    jsMapGet (jsMapSet t k v) k = some v := by
  induction t with
  | nil => simp [jsMapGet, jsMapSet]
  | cons p rest ih =>
    obtain ⟨k0, v0⟩ := p
    by_cases h : k0 == k
    · simp [jsMapGet, jsMapSet, h]
    · simp only [jsMapSet, h, Bool.false_eq_true, if_false, jsMapGet]
      simpa [h] using ih

/-- Map.set leaves lookups of other keys unchanged. -/
theorem jsMapGet_set_other {α : Type} (t : List (String × α)) (k k0 : String) (v : α)
    (h : k0 ≠ k) : jsMapGet (jsMapSet t k v) k0 = jsMapGet t k0 := by
  induction t with
  | nil =>
    simp only [jsMapSet, jsMapGet]
    have : (k == k0) = false := by
      simpa using fun he => h he.symm
    simp [this]
  | cons p rest ih =>
    obtain ⟨k1, v1⟩ := p
    by_cases h1 : k1 == k
    · have h2 : (k1 == k0) = false := by
        have he : k1 = k := by simpa using h1
        subst he
        simpa using fun he => h he.symm
      simp [jsMapSet, jsMapGet, h1, h2]
    · by_cases h2 : k1 == k0
      · simp [jsMapSet, jsMapGet, h1, h2]
      · simp only [jsMapSet, h1, Bool.false_eq_true, if_false, jsMapGet, h2]
        simpa [h2] using ih

/-- Each reassignment of the string variable to a fresh literal mallocs
the next buffer, frees the previously owned buffer, and stores the new
one, threading single ownership through the whole run. -/
theorem translateStmts_reassign (x : String) : ∀ (ss : List String) (st : TState) (b : Nat),
    st.vars = [(x, { type := CType.string, stored := Val.heapBuf b })] →
    st.nextBuf = b + 1 →
    ∃ stF : TState,
      translateStmts st (ss.map (fun s => Stmt.assignment x (.stringLiteral s))) =
        .ok (stF, reassignTail x b ss.length) ∧
      stF.vars = [(x, { type := CType.string, stored := Val.heapBuf (b + ss.length) })] ∧
      stF.nextBuf = (b + ss.length) + 1 := by
  intro ss
  induction ss with
  | nil =>
    intro st b hv hn
    refine ⟨st, ?_, by simpa using hv, by simpa using hn⟩
    simp [translateStmts, reassignTail]
  | cons s ss ih =>
    intro st b hv hn
    obtain ⟨vars, nextBuf, sigs, funcNames⟩ := st
    simp only at hv hn
    subst hv
    subst hn
    have hstep : translateStmt
        ⟨[(x, { type := CType.string, stored := Val.heapBuf b })], b + 1, sigs, funcNames⟩
        (Stmt.assignment x (.stringLiteral s)) =
        .ok (⟨[(x, { type := CType.string, stored := Val.heapBuf (b + 1) })], b + 1 + 1, sigs, funcNames⟩,
          [.malloc (b + 1), .free (.heapBuf b), .store x (.heapBuf (b + 1))]) := by
      simp [translateStmt, translateExpr, Except.instMonad, Except.bind, jsMapGet, jsMapSet]
    have hnext := ih
      ⟨[(x, { type := CType.string, stored := Val.heapBuf (b + 1) })], b + 1 + 1, sigs, funcNames⟩
      (b + 1) rfl rfl
    obtain ⟨stF, h1, h2, h3⟩ := hnext
    refine ⟨stF, ?_, ?_, ?_⟩
    · simp only [List.map_cons, translateStmts, hstep, Except.instMonad, Except.bind]
      rw [h1]
      simp [reassignTail, Except.instMonad, Except.bind]
    · rw [h2]
      simp only [List.length_cons]
      have h4 : b + 1 + ss.length = b + (ss.length + 1) := by omega
      rw [h4]
    · rw [h3]
      simp only [List.length_cons]
      omega

/-- The reassignment tail frees exactly the buffers owned before each
assignment: buffers b, b+1, ..., b+n-1 in order. -/
theorem freedVals_reassignTail (x : String) : ∀ (n b : Nat),
    freedVals (reassignTail x b n) = (List.range n).map (fun i => Val.heapBuf (b + i)) := by
  intro n
  induction n with
  | zero => intro b; simp [reassignTail, freedVals]
  | succ n ih =>
    intro b
    have hsplit : freedVals (reassignTail x b (n + 1)) =
        Val.heapBuf b :: freedVals (reassignTail x (b + 1) n) := by
      simp [reassignTail, freedVals, List.filterMap_append]
    rw [hsplit, ih (b + 1), List.range_succ_eq_map, List.map_cons, List.map_map]
    simp only [Nat.add_zero, List.cons.injEq, true_and]
    apply List.map_congr_left
    intro i _
    simp only [Function.comp]
    congr 1
    omega

/-- The reassignment tail mallocs one buffer per assignment. -/
theorem mallocEvents_reassignTail (x : String) : ∀ (n b : Nat),
    (mallocEvents (reassignTail x b n)).length = n := by
  intro n
  induction n with
  | zero => intro b; simp [reassignTail, mallocEvents]
  | succ n ih =>
    intro b
    simp only [reassignTail, mallocEvents, List.filterMap_append, List.filterMap_cons]
    simp only [mallocEvents] at ih
    simp [ih (b + 1)]

/-- Claim C1: lowering a program that declares one string variable with a
string-literal initializer and reassigns it once per element of ss emits
exactly the ownership trace: the declaration mallocs buffer 0 and stores
it, and each assignment mallocs the next buffer, frees the variable's
previous buffer, and stores the new one. The trace has ss.length + 1
malloc calls and ss.length free calls (allocate count = free count + 1),
and the freed buffers are pairwise distinct (no double free). -/
theorem claim_C1_string_reassign_ownership (x s0 : String) (ss : List String) :
    translate (reassignProg x s0 ss) = .ok (reassignTrace x ss.length) ∧
    (mallocEvents (reassignTrace x ss.length)).length = ss.length + 1 ∧
    (freedVals (reassignTrace x ss.length)).length = ss.length ∧
    (freedVals (reassignTrace x ss.length)).Nodup := by
  refine ⟨?_, ?_, ?_, ?_⟩
  · rw [show reassignProg x s0 ss =
        Stmt.variableDeclaration x (Expr.stringLiteral s0) ::
          ss.map (fun s => Stmt.assignment x (Expr.stringLiteral s)) from rfl]
    have hdecl : ∀ (sg : SigTable) (fns : List String),
        translateStmt { vars := [], nextBuf := 0, sigs := sg, funcNames := fns }
          (Stmt.variableDeclaration x (.stringLiteral s0)) =
        .ok (⟨[(x, { type := CType.string, stored := Val.heapBuf 0 })], 1, sg, fns⟩,
          [.malloc 0, .store x (.heapBuf 0)]) := fun sg fns => rfl
    obtain ⟨stF, h1, -, -⟩ := translateStmts_reassign x ss
      ⟨[(x, { type := CType.string, stored := Val.heapBuf 0 })], 1,
        translateSignatures (Stmt.variableDeclaration x (.stringLiteral s0) ::
          ss.map (fun s => Stmt.assignment x (.stringLiteral s))), runtimeFunctionNames⟩ 0 rfl rfl
    simp only [translate, translateStmts, hdecl, Except.instMonad, Except.bind]
    rw [h1]
    simp [reassignTrace, Except.instMonad, Except.bind]
  · simp only [reassignTrace, mallocEvents, List.filterMap_append, List.filterMap_cons]
    have := mallocEvents_reassignTail x ss.length 0
    simp only [mallocEvents] at this
    simp [this]
  · rw [show freedVals (reassignTrace x ss.length) =
        freedVals (reassignTail x 0 ss.length) from by
      simp [reassignTrace, freedVals, List.filterMap_append, List.filterMap_cons]]
    rw [freedVals_reassignTail x ss.length 0]
    simp
  · rw [show freedVals (reassignTrace x ss.length) =
        freedVals (reassignTail x 0 ss.length) from by
      simp [reassignTrace, freedVals, List.filterMap_append, List.filterMap_cons]]
    rw [freedVals_reassignTail x ss.length 0]
    refine List.Nodup.map ?_ (List.nodup_range _)
    intro i j hij
    simpa using hij

/-- The per-position merge is commutative: a two-point upgrade lattice. -/
theorem mergeTypes_comm (s a : CType) : mergeTypes s a = mergeTypes a s := by
  cases s <;> cases a <;> rfl

/-- Merging into an empty recorded signature records the argument types. -/
theorem mergeSig_nil (a : List CType) : mergeSig [] a = a := by
  induction a with
  | nil => rfl
  | cons x xs ih => simp [mergeSig, ih]

/-- Positions beyond the argument list are kept unchanged, so merging an
empty argument list changes nothing. -/
theorem mergeSig_nil_right (a : List CType) : mergeSig a [] = a := by
  cases a <;> rfl

/-- The signature merge is commutative. -/
theorem mergeSig_comm (a : List CType) : ∀ (b : List CType), mergeSig a b = mergeSig b a := by
  induction a with
  | nil =>
    intro b
    rw [mergeSig_nil, mergeSig_nil_right]
  | cons x xs ih =>
    intro b
    cases b with
    | nil => rw [mergeSig_nil, mergeSig_nil_right]
    | cons y ys => simp [mergeSig, mergeTypes_comm x y, ih ys]

/-- The merged signature per position: positions present in both are
merged pointwise, positions present in only one are kept. -/
theorem mergeSig_get? (a : List CType) : ∀ (b : List CType) (j : Nat),
    (mergeSig a b).get? j =
      match a.get? j, b.get? j with
      | some s, some t => some (mergeTypes s t)
      | some s, Option.none => some s
      | Option.none, some t => some t
      | Option.none, Option.none => Option.none := by
  induction a with
  | nil =>
    intro b j
    rw [mergeSig_nil]
    cases hb : b.get? j
    · cases j <;> rfl
    · cases j <;> rfl
  | cons x xs ih =>
    intro b j
    cases b with
    | nil =>
      rw [mergeSig_nil_right]
      cases hb : (x :: xs).get? j
      · cases j <;> rfl
      · cases j <;> rfl
    | cons y ys =>
      cases j with
      | zero => rfl
      | succ j => exact ih ys j

/-- A string recorded at a position survives any merge. -/
theorem mergeSig_preserves_string (a b : List CType) (j : Nat)
    (h : a.get? j = some CType.string) : (mergeSig a b).get? j = some CType.string := by
  rw [mergeSig_get?, h]
  cases hb : b.get? j
  · rfl
  · rename_i t
    cases t <;> rfl

/-- An int recorded at a position is upgraded by a string argument. -/
theorem mergeSig_upgrades (a b : List CType) (j : Nat)
    (ha : a.get? j = some CType.int) (hb : b.get? j = some CType.string) :
    (mergeSig a b).get? j = some CType.string := by
  rw [mergeSig_get?, ha, hb]
  rfl

/-- A string in a merged signature came from one of the two sides. -/
theorem mergeSig_string_origin (a b : List CType) (j : Nat)
    (h : (mergeSig a b).get? j = some CType.string) :
    a.get? j = some CType.string ∨ b.get? j = some CType.string := by
  rw [mergeSig_get?] at h
  cases ha : a.get? j <;> cases hb : b.get? j <;> rw [ha, hb] at h
  · simp at h
  · exact Or.inr (by simpa using h)
  · exact Or.inl (by simpa using h)
  · rename_i s t
    cases s <;> cases t <;> simp_all [mergeTypes]

/-- The signature pre-pass sees through any nesting of if/while/func
bodies: collecting a wrapped statement collects the inner statement. -/
theorem collectStmt_wrap (vars : String → Option CType) : ∀ (ctxs : List Ctx)
    (table : SigTable) (s : Stmt),
    collectStmt vars table (wrapCtx ctxs s) = collectStmt vars table s := by
  intro ctxs
  induction ctxs with
  | nil => intro table s; rfl
  | cons c rest ih =>
    intro table s
    cases c <;> simp [wrapCtx, collectStmt, collectFunctionSignatures, ih]

/-- Collecting a two-call program for the same callee merges the two
argument-type lists into the recorded signature. -/
theorem collect_two_calls (vars : String → Option CType) (f : String)
    (args1 args2 : List Expr) :
    jsMapGet (collectFunctionSignatures vars []
      [.callStmt f args1 Option.none, .callStmt f args2 Option.none]) f =
      some (mergeSig (args1.map (getExpressionType vars)) (args2.map (getExpressionType vars))) := by
  show jsMapGet (collectStmt vars (collectStmt vars [] (.callStmt f args1 Option.none))
      (.callStmt f args2 Option.none)) f = _
  simp only [collectStmt]
  rw [jsMapGet_set_self, jsMapGet_set_self]
  simp [jsMapGet, mergeSig_nil]

mutual

/-- A string recorded for a position of a callee is never removed by
collecting one further statement. -/
theorem collectStmt_preserves_string (vars : String → Option CType) (f : String) (j : Nat)
    (table : SigTable) (s : Stmt) (sig : List CType)
    (hget : jsMapGet table f = some sig) (hj : sig.get? j = some CType.string) :
    ∃ sig2, jsMapGet (collectStmt vars table s) f = some sig2 ∧
      sig2.get? j = some CType.string := by
  cases s with
  | callStmt callee args result =>
    by_cases hc : callee = f
    · subst hc
      refine ⟨mergeSig ((jsMapGet table callee).getD []) (args.map (getExpressionType vars)),
        ?_, ?_⟩
      · simp only [collectStmt]
        exact jsMapGet_set_self _ _ _
      · rw [hget]
        exact mergeSig_preserves_string _ _ _ hj
    · refine ⟨sig, ?_, hj⟩
      simp only [collectStmt]
      rw [jsMapGet_set_other _ callee f _ (fun he => hc he.symm)]
      exact hget
  | funcDecl name params body =>
    exact collectStmts_preserves_string vars f j table body sig hget hj
  | ifStmt test consequent =>
    exact collectStmts_preserves_string vars f j table consequent sig hget hj
  | whileStmt test body =>
    exact collectStmts_preserves_string vars f j table body sig hget hj
  | variableDeclaration a b => exact ⟨sig, hget, hj⟩
  | assignment a b => exact ⟨sig, hget, hj⟩
  | printStmt a => exact ⟨sig, hget, hj⟩
  | freeStmt a => exact ⟨sig, hget, hj⟩
  | returnStmt a => exact ⟨sig, hget, hj⟩

/-- A string recorded for a position of a callee is never removed by
collecting any further statement list: a position once string is never
downgraded. -/
theorem collectStmts_preserves_string (vars : String → Option CType) (f : String) (j : Nat)
    (table : SigTable) (stmts : List Stmt) (sig : List CType)
    (hget : jsMapGet table f = some sig) (hj : sig.get? j = some CType.string) :
    ∃ sig2, jsMapGet (collectFunctionSignatures vars table stmts) f = some sig2 ∧
      sig2.get? j = some CType.string := by
  cases stmts with
  | nil => exact ⟨sig, hget, hj⟩
  | cons s rest =>
    obtain ⟨sig1, h1, h2⟩ := collectStmt_preserves_string vars f j table s sig hget hj
    exact collectStmts_preserves_string vars f j (collectStmt vars table s) rest sig1 h1 h2

end

/-- Claim C2: with two call sites of the same function whose argument at
some position types int at one site and string at the other, each site
possibly nested inside if/while/func bodies, the pre-pass records string
for that position and records the identical signature for the callee in
either order of the two sites; moreover a position once recorded as
string is never downgraded by any later statement. -/
theorem claim_C2_signature_merge :
    (∀ (f : String) (args1 args2 : List Expr) (ctxs1 ctxs2 : List Ctx) (j : Nat),
      (args1.map getExpressionTypePre).get? j = some CType.int →
      (args2.map getExpressionTypePre).get? j = some CType.string →
      (jsMapGet (translateSignatures
          [wrapCtx ctxs1 (.callStmt f args1 Option.none),
           wrapCtx ctxs2 (.callStmt f args2 Option.none)]) f =
        jsMapGet (translateSignatures
          [wrapCtx ctxs2 (.callStmt f args2 Option.none),
           wrapCtx ctxs1 (.callStmt f args1 Option.none)]) f) ∧
      (∃ sig, jsMapGet (translateSignatures
          [wrapCtx ctxs1 (.callStmt f args1 Option.none),
           wrapCtx ctxs2 (.callStmt f args2 Option.none)]) f = some sig ∧
        sig.get? j = some CType.string)) ∧
    (∀ (vars : String → Option CType) (table : SigTable) (stmts : List Stmt)
        (f : String) (j : Nat) (sig : List CType),
      jsMapGet table f = some sig → sig.get? j = some CType.string →
      ∃ sig2, jsMapGet (collectFunctionSignatures vars table stmts) f = some sig2 ∧
        sig2.get? j = some CType.string) := by
  constructor
  · intro f args1 args2 ctxs1 ctxs2 j h1 h2
    have e12 : translateSignatures
        [wrapCtx ctxs1 (.callStmt f args1 Option.none),
         wrapCtx ctxs2 (.callStmt f args2 Option.none)] =
        collectFunctionSignatures (fun _ => Option.none) []
          [.callStmt f args1 Option.none, .callStmt f args2 Option.none] := by
      show collectStmt (fun _ => Option.none)
          (collectStmt (fun _ => Option.none) [] (wrapCtx ctxs1 (.callStmt f args1 Option.none)))
          (wrapCtx ctxs2 (.callStmt f args2 Option.none)) = _
      rw [collectStmt_wrap, collectStmt_wrap]
      rfl
    have e21 : translateSignatures
        [wrapCtx ctxs2 (.callStmt f args2 Option.none),
         wrapCtx ctxs1 (.callStmt f args1 Option.none)] =
        collectFunctionSignatures (fun _ => Option.none) []
          [.callStmt f args2 Option.none, .callStmt f args1 Option.none] := by
      show collectStmt (fun _ => Option.none)
          (collectStmt (fun _ => Option.none) [] (wrapCtx ctxs2 (.callStmt f args2 Option.none)))
          (wrapCtx ctxs1 (.callStmt f args1 Option.none)) = _
      rw [collectStmt_wrap, collectStmt_wrap]
      rfl
    rw [e12, e21, collect_two_calls, collect_two_calls]
    constructor
    · rw [mergeSig_comm]
    · refine ⟨mergeSig (args1.map (getExpressionType (fun _ => Option.none)))
        (args2.map (getExpressionType (fun _ => Option.none))), rfl, ?_⟩
      exact mergeSig_upgrades _ _ _ h1 h2
  · intro vars table stmts f j sig hget hj
    exact collectStmts_preserves_string vars f j table stmts sig hget hj

/-- Claim C2 witness: the theorem applied to call sites call f x (int)
and call f with a string literal, one of them nested in an if body, in
both orders, and the monotonicity part applied to a concrete table. -/
theorem claim_C2_signature_merge_witness :
    ((jsMapGet (translateSignatures
        [wrapCtx [] (.callStmt "f" [.identifier "x"] Option.none),
         wrapCtx [.inIf (.numericLiteral 1)] (.callStmt "f" [.stringLiteral "s"] Option.none)]) "f" =
      jsMapGet (translateSignatures
        [wrapCtx [.inIf (.numericLiteral 1)] (.callStmt "f" [.stringLiteral "s"] Option.none),
         wrapCtx [] (.callStmt "f" [.identifier "x"] Option.none)]) "f") ∧
     (∃ sig, jsMapGet (translateSignatures
        [wrapCtx [] (.callStmt "f" [.identifier "x"] Option.none),
         wrapCtx [.inIf (.numericLiteral 1)] (.callStmt "f" [.stringLiteral "s"] Option.none)]) "f" =
          some sig ∧ sig.get? 0 = some CType.string)) ∧
    (∃ sig2, jsMapGet (collectFunctionSignatures (fun _ => Option.none)
        [("f", [CType.string])] []) "f" = some sig2 ∧ sig2.get? 0 = some CType.string) :=
  ⟨claim_C2_signature_merge.1 "f" [.identifier "x"] [.stringLiteral "s"]
      [] [.inIf (.numericLiteral 1)] 0 (by rfl) (by rfl),
   claim_C2_signature_merge.2 (fun _ => Option.none) [("f", [CType.string])] []
      "f" 0 [CType.string] (by rfl) (by rfl)⟩

mutual

/-- A string recorded at a position of f after collecting one statement
either was already recorded or comes from a call site inside that
statement whose argument at that position has pre-pass type string. -/
theorem collectStmt_string_origin (f : String) (j : Nat) (table : SigTable) (s : Stmt)
    (sig2 : List CType)
    (hget : jsMapGet (collectStmt (fun _ => Option.none) table s) f = some sig2)
    (hj : sig2.get? j = some CType.string) :
    (∃ sig0, jsMapGet table f = some sig0 ∧ sig0.get? j = some CType.string) ∨
      stmtHasStringArgAt f j s = true := by
  cases s with
  | callStmt callee args result =>
    by_cases hc : callee = f
    · subst hc
      simp only [collectStmt] at hget
      rw [jsMapGet_set_self] at hget
      have hsig : sig2 = mergeSig ((jsMapGet table callee).getD [])
          (args.map (getExpressionType (fun _ => Option.none))) := by
        injection hget with h
        exact h.symm
      subst hsig
      rcases mergeSig_string_origin _ _ _ hj with h | h
      · cases htab : jsMapGet table callee with
        | none =>
          rw [htab] at h
          simp only [Option.getD] at h
          cases j <;> simp at h
        | some sig0 =>
          rw [htab] at h
          simp only [Option.getD] at h
          exact Or.inl ⟨sig0, rfl, h⟩
      · right
        simp only [stmtHasStringArgAt, Bool.and_eq_true, beq_self_eq_true, true_and,
          beq_iff_eq]
        exact h
    · simp only [collectStmt] at hget
      rw [jsMapGet_set_other _ callee f _ (fun he => hc he.symm)] at hget
      exact Or.inl ⟨sig2, hget, hj⟩
  | funcDecl name params body =>
    rcases collectStmts_string_origin f j table body sig2 hget hj with h | h
    · exact Or.inl h
    · right
      simpa [stmtHasStringArgAt] using h
  | ifStmt test consequent =>
    rcases collectStmts_string_origin f j table consequent sig2 hget hj with h | h
    · exact Or.inl h
    · right
      simpa [stmtHasStringArgAt] using h
  | whileStmt test body =>
    rcases collectStmts_string_origin f j table body sig2 hget hj with h | h
    · exact Or.inl h
    · right
      simpa [stmtHasStringArgAt] using h
  | variableDeclaration a b => exact Or.inl ⟨sig2, hget, hj⟩
  | assignment a b => exact Or.inl ⟨sig2, hget, hj⟩
  | printStmt a => exact Or.inl ⟨sig2, hget, hj⟩
  | freeStmt a => exact Or.inl ⟨sig2, hget, hj⟩
  | returnStmt a => exact Or.inl ⟨sig2, hget, hj⟩

/-- A string recorded at a position of f after the pre-pass over a
statement list either was already recorded or comes from a call site in
the list whose argument at that position has pre-pass type string. -/
theorem collectStmts_string_origin (f : String) (j : Nat) (table : SigTable)
    (stmts : List Stmt) (sig2 : List CType)
    (hget : jsMapGet (collectFunctionSignatures (fun _ => Option.none) table stmts) f = some sig2)
    (hj : sig2.get? j = some CType.string) :
    (∃ sig0, jsMapGet table f = some sig0 ∧ sig0.get? j = some CType.string) ∨
      stmtsHaveStringArgAt f j stmts = true := by
  cases stmts with
  | nil => exact Or.inl ⟨sig2, hget, hj⟩
  | cons s rest =>
    rcases collectStmts_string_origin f j (collectStmt (fun _ => Option.none) table s)
        rest sig2 hget hj with ⟨sig1, hg1, hj1⟩ | h
    · rcases collectStmt_string_origin f j table s sig1 hg1 hj1 with h0 | h0
      · exact Or.inl h0
      · right
        simp [stmtsHaveStringArgAt, h0]
    · right
      simp [stmtsHaveStringArgAt, h]

end

/-- Claim C10: the signature pre-pass runs before any statement is
lowered, against the still-empty variable table, so every identifier
argument types int regardless of any declaration; an argument has
pre-pass type string exactly when it is a string literal or a +
expression with a string-typed operand; every string recorded in the
signature table comes from such an argument at some call site; and a
call whose arguments are all identifiers records an all-int signature. -/
theorem claim_C10_prepass_types :
    (∀ n, getExpressionTypePre (.identifier n) = CType.int) ∧
    (∀ e, getExpressionTypePre e = CType.string ↔
      ((∃ s, e = .stringLiteral s) ∨
       (∃ l r, e = .binary l "+" r ∧
         (getExpressionTypePre l = CType.string ∨ getExpressionTypePre r = CType.string)))) ∧
    (∀ (stmts : List Stmt) (f : String) (j : Nat) (sig : List CType),
      jsMapGet (translateSignatures stmts) f = some sig →
      sig.get? j = some CType.string →
      stmtsHaveStringArgAt f j stmts = true) ∧
    (∀ (f : String) (names : List String),
      jsMapGet (translateSignatures
        [.callStmt f (names.map .identifier) Option.none]) f =
        some (names.map fun _ => CType.int)) := by
  refine ⟨fun n => rfl, ?_, ?_, ?_⟩
  · intro e
    cases e with
    | identifier n => simp [getExpressionTypePre, getExpressionType]
    | numericLiteral v => simp [getExpressionTypePre, getExpressionType]
    | stringLiteral v => simp [getExpressionTypePre, getExpressionType]
    | unaryMinus e => simp [getExpressionTypePre, getExpressionType]
    | sinExpr a b => simp [getExpressionTypePre, getExpressionType]
    | cosExpr a b => simp [getExpressionTypePre, getExpressionType]
    | binary l op r =>
      show (getExpressionType (fun _ => Option.none) (.binary l op r) = CType.string) ↔ _
      simp only [getExpressionType]
      constructor
      · intro h
        split at h
        · rename_i hcond
          simp only [Bool.and_eq_true, beq_iff_eq, Bool.or_eq_true] at hcond
          right
          exact ⟨l, r, by rw [hcond.1], hcond.2⟩
        · exact absurd h (by simp)
      · rintro (⟨s, heq⟩ | ⟨l', r', heq, hlr⟩)
        · exact absurd heq (by simp)
        · rw [Expr.binary.injEq] at heq
          obtain ⟨hl, hop, hr⟩ := heq
          subst hl
          subst hop
          subst hr
          have : ((("+" : String) == "+") &&
              (getExpressionType (fun _ => Option.none) l == CType.string ||
               getExpressionType (fun _ => Option.none) r == CType.string)) = true := by
            simp only [beq_self_eq_true, Bool.true_and, Bool.or_eq_true, beq_iff_eq]
            exact hlr
          rw [if_pos this]
  · intro stmts f j sig hget hj
    rcases collectStmts_string_origin f j [] stmts sig hget hj with ⟨sig0, h0, _⟩ | h
    · exact absurd h0 (by simp [jsMapGet])
    · exact h
  · intro f names
    show jsMapGet (collectStmt (fun _ => Option.none) []
      (.callStmt f (names.map .identifier) Option.none)) f = _
    simp only [collectStmt]
    rw [jsMapGet_set_self]
    simp only [jsMapGet, Option.getD, mergeSig_nil, List.map_map]
    exact congrArg some (List.map_congr_left (fun a _ => rfl))

/-- Claim C10 witness: the iff applied at a string literal, the
origin property applied to a one-call program with a string-literal
argument, and the all-identifier conjunct at a two-parameter call. -/
theorem claim_C10_prepass_types_witness :
    (getExpressionTypePre (.stringLiteral "s") = CType.string) ∧
    (jsMapGet (translateSignatures [.callStmt "f" [.stringLiteral "s"] Option.none]) "f" =
        some [CType.string] ∧
      stmtsHaveStringArgAt "f" 0 [.callStmt "f" [.stringLiteral "s"] Option.none] = true) ∧
    jsMapGet (translateSignatures
      [.callStmt "g" [.identifier "x", .identifier "y"] Option.none]) "g" =
      some [CType.int, CType.int] :=
  ⟨(claim_C10_prepass_types.2.1 (.stringLiteral "s")).mpr (Or.inl ⟨"s", rfl⟩),
   ⟨by decide,
    claim_C10_prepass_types.2.2.1 [.callStmt "f" [.stringLiteral "s"] Option.none]
      "f" 0 [CType.string] (by decide) (by decide)⟩,
   claim_C10_prepass_types.2.2.2 "g" ["x", "y"]⟩

end Complect
